import Mathlib

/-!
Verification development for the Nemea ddos_detector_v2 detection core.

The C++ sources are shallowly embedded as follows.

* Unsigned machine counters (`uint32_t`, `uint64_t`) are modelled as `ℕ`.
  All subtractions in the sources are explicitly guarded ("saturating"), so
  no wrap-around arises on the operations modelled here and the idealised
  counters agree with the machine ones on every reachable computation of the
  claims below.
* `double`/`float` values are modelled as `ℚ`.  `std::sqrt` is passed as an
  uninterpreted function parameter `sqrtQ : ℚ → ℚ`; every theorem about the
  CUSUM holds for an arbitrary interpretation of it.
* `std::map`/`std::unordered_map` are modelled as functional maps
  `ℕ → Option ℕ` (absent key = `none`); keys are unique by construction,
  exactly as for the C++ containers.
* `std::bitset<N>` keys are modelled as natural numbers, bit `i` being
  `Nat.testBit k i`.
* The `Trie` prefix sets and their sensitivity lookup are external
  collaborators (not part of the detection core sources); they are passed as
  abstract parameters `prot : ℕ → Bool`, `wl : ℕ → Bool`, `getMult : ℕ → ℚ`.
-/

/-- `netflowRecord_t` from common.h: source address, destination address,
packet count and byte count of one flow. -/
structure netflowRecord where
  srcAddr : ℕ
  dstAddr : ℕ
  packets : ℕ
  bytes : ℕ

/-- Value of `reversed` after the loop `for i < N: if cond i then reversed |= (1 << i)`
starting from `reversed = 0`: since the set bits are pairwise distinct powers of two,
the bitwise-or accumulation equals this sum. -/
def bitsToNat (f : ℕ → Bool) : ℕ → ℕ
  | 0 => 0
  | n + 1 => bitsToNat f n + (if f n then 2 ^ n else 0)

/-- `binCountSketchValue<noBits>` from binCountSketchValue.h: a cell total and one
counter per key bit.  `binCount` is meaningful on indices `< N`. -/
structure binCountSketchValue (N : ℕ) where
  totalCount : ℕ
  binCount : ℕ → ℕ

namespace binCountSketchValue

/-- The constructor `binCountSketchValue(u_int32_t initialValue)`: sets the total
and every bin to `initialValue`. -/
def init (N : ℕ) (initialValue : ℕ) : binCountSketchValue N :=
  ⟨initialValue, fun i => if i < N then initialValue else 0⟩

/-- `binCountSketchValue::update(key, value)`: adds `value` to the total and to
`binCount[i]` for every set bit `i` of `key`. -/
def update (b : binCountSketchValue N) (key : ℕ) (value : ℕ) : binCountSketchValue N :=
  ⟨b.totalCount + value,
   fun i => if i < N ∧ key.testBit i then b.binCount i + value else b.binCount i⟩

/-- `binCountSketchValue::reverseKey()`: the key whose bit `i` (for `i < N`) is set
iff `binCount[i] > totalCount / 2` (integer division). -/
def reverseKey (b : binCountSketchValue N) : ℕ :=
  bitsToNat (fun i => decide (b.totalCount / 2 < b.binCount i)) N

/-- `binCountSketchValue::operator-=`: guarded (saturating) subtraction on the
total and on every bin `i < N`. -/
def sub (b o : binCountSketchValue N) : binCountSketchValue N :=
  ⟨if b.totalCount < o.totalCount then 0 else b.totalCount - o.totalCount,
   fun i => if i < N then
      (if b.binCount i < o.binCount i then 0 else b.binCount i - o.binCount i)
    else b.binCount i⟩

/-- `binCountSketchValue::operator+=`: componentwise addition on the total and on
every bin `i < N`. -/
def add (b o : binCountSketchValue N) : binCountSketchValue N :=
  ⟨b.totalCount + o.totalCount,
   fun i => if i < N then b.binCount i + o.binCount i else b.binCount i⟩

end binCountSketchValue

/-- Increment of a functional map entry, as in `map[key] += v` on a C++ map whose
absent entries value-initialise to `0`. -/
def mapIncr (m : ℕ → Option ℕ) (key : ℕ) (v : ℕ) : ℕ → Option ℕ :=
  fun k => if k = key then some ((m key).getD 0 + v) else m k

/-- Pointwise result of the `operator-=` loop over the entries of `o`:
an entry of `m` keyed in `o` is decremented if it stays positive and erased
otherwise; entries of `m` not keyed in `o` are untouched. -/
def mapSub (m o : ℕ → Option ℕ) : ℕ → Option ℕ :=
  fun k =>
    match o k with
    | none => m k
    | some v =>
      match m k with
      | none => none
      | some w => if v < w then some (w - v) else none

/-- Pointwise result of the `operator+=` loop over the entries of `o`. -/
def mapAdd (m o : ℕ → Option ℕ) : ℕ → Option ℕ :=
  fun k =>
    match o k with
    | none => m k
    | some v => some ((m k).getD 0 + v)

/-- `ddosDetectorValue` from ddosDetectorValue.h: the destination-sketch cell
aggregate. -/
structure ddosDetectorValue where
  sentBytes : ℕ
  sentFlows : ℕ
  packetCount : ℕ
  byteCount : ℕ
  flowCount : ℕ
  reversibleKey : binCountSketchValue 32
  communicatedWith : ℕ → Option ℕ
  ipSubnets : ℕ → Option ℕ

namespace ddosDetectorValue

/-- The default constructor: all counters zero, maps empty.  (`ipSubnets_` and
`reversibleKey_` are default-constructed as well.) -/
def init : ddosDetectorValue :=
  ⟨0, 0, 0, 0, 0, binCountSketchValue.init 32 0, fun _ => none, fun _ => none⟩

/-- `ddosDetectorValue::update(key, value)`: bins the high octet of the
destination address, feeds the full destination address into the reversible
key with weight 1, and accumulates bytes, packets and one flow.  The sketch
`key` parameter is ignored by the C++ body as well. -/
def update (d : ddosDetectorValue) (_key : ℕ) (value : netflowRecord) : ddosDetectorValue :=
  { d with
    ipSubnets := mapIncr d.ipSubnets (value.dstAddr >>> 24) 1
    reversibleKey := d.reversibleKey.update value.dstAddr 1
    byteCount := d.byteCount + value.bytes
    packetCount := d.packetCount + value.packets
    flowCount := d.flowCount + 1 }

/-- `ddosDetectorValue::operator-=`: guarded (saturating) subtraction on every
scalar field and the reversible key, with map entries decremented or erased. -/
def sub (d o : ddosDetectorValue) : ddosDetectorValue :=
  { sentBytes := if o.sentBytes > d.sentBytes then 0 else d.sentBytes - o.sentBytes
    sentFlows := if o.sentFlows > d.sentFlows then 0 else d.sentFlows - o.sentFlows
    packetCount := if o.packetCount > d.packetCount then 0 else d.packetCount - o.packetCount
    byteCount := if o.byteCount > d.byteCount then 0 else d.byteCount - o.byteCount
    flowCount := if o.flowCount > d.flowCount then 0 else d.flowCount - o.flowCount
    reversibleKey := d.reversibleKey.sub o.reversibleKey
    communicatedWith := mapSub d.communicatedWith o.communicatedWith
    ipSubnets := mapSub d.ipSubnets o.ipSubnets }

/-- `ddosDetectorValue::operator+=`: componentwise addition. -/
def add (d o : ddosDetectorValue) : ddosDetectorValue :=
  { sentBytes := d.sentBytes + o.sentBytes
    sentFlows := d.sentFlows + o.sentFlows
    packetCount := d.packetCount + o.packetCount
    byteCount := d.byteCount + o.byteCount
    flowCount := d.flowCount + o.flowCount
    reversibleKey := d.reversibleKey.add o.reversibleKey
    communicatedWith := mapAdd d.communicatedWith o.communicatedWith
    ipSubnets := mapAdd d.ipSubnets o.ipSubnets }

/-- `ddosDetectorValue::updateSentBytes`: accumulates the reverse-direction
byte count and one sent flow. -/
def updateSentBytes (d : ddosDetectorValue) (b : ℕ) : ddosDetectorValue :=
  { d with sentBytes := d.sentBytes + b, sentFlows := d.sentFlows + 1 }

/-- `ddosDetectorValue::updateFlowCounter`: one more flow from the source-sketch
cell `index`. -/
def updateFlowCounter (d : ddosDetectorValue) (index : ℕ) : ddosDetectorValue :=
  { d with communicatedWith := mapIncr d.communicatedWith index 1 }

/-- `ddosDetectorValue::reverseKey()`: majority-vote reversal of the cell key. -/
def reverseKey (d : ddosDetectorValue) : ℕ :=
  d.reversibleKey.reverseKey

end ddosDetectorValue

/-- `AdaptiveCUSUM` from adaptiveCusum.h.  `timePoint` is modelled as `ℤ`
(seconds).  The constructor leaves `m` and `v` uninitialised; they are
parameters of `AdaptiveCUSUM.init` and are overwritten by the first
`process` call before any statistic reads them. -/
structure AdaptiveCUSUM where
  c : ℚ
  alpha : ℚ
  m : ℚ
  v : ℚ
  SH : ℚ
  SL : ℚ
  first : Bool
  span : ℕ
  thresholdHigh : ℚ
  thresholdLow : ℚ
  maxSH : ℚ
  maxSL : ℚ
  windowID : ℕ
  lastAlert : ℤ

namespace AdaptiveCUSUM

/-- The constructor `AdaptiveCUSUM(c, alpha, span)`. -/
def init (c alpha : ℚ) (span : ℕ) (m0 v0 : ℚ) : AdaptiveCUSUM :=
  ⟨c, alpha, m0, v0, 0, 0, true, span, 0, 0, 0, 0, 0, 0⟩

/-- `AdaptiveCUSUM::process(currentValue, learning)`; `sqrtQ` interprets
`std::sqrt`. -/
def process (sqrtQ : ℚ → ℚ) (s : AdaptiveCUSUM) (currentValue : ℚ) (learning : Bool) :
    AdaptiveCUSUM :=
  if s.first then
    { s with m := currentValue, v := 0, first := false }
  else
    let diff := currentValue - s.m
    let incr := s.alpha * diff
    let m' := s.m + incr
    let v' := (1 - s.alpha) * s.v + s.alpha * diff * diff
    if learning = false ∨ s.span ≤ s.windowID then
      let SH' := max 0 (s.SH + (currentValue - m') - s.c * sqrtQ v')
      let SL' := max 0 (s.SL - (currentValue - m') - s.c * sqrtQ v')
      { s with m := m', v := v', SH := SH', SL := SL',
               maxSH := max SH' s.maxSH, maxSL := max SL' s.maxSL,
               windowID := s.windowID + 1 }
    else
      { s with m := m', v := v',
               maxSH := max s.SH s.maxSH, maxSL := max s.SL s.maxSL,
               windowID := s.windowID + 1 }

/-- `AdaptiveCUSUM::isPositiveAnomaly(multiplier)`: `SH > thresholdHigh * multiplier`. -/
def isPositiveAnomaly (s : AdaptiveCUSUM) (multiplier : ℚ) : Bool :=
  decide (s.thresholdHigh * multiplier < s.SH)

/-- `AdaptiveCUSUM::isNegativeAnomaly(multiplier)`: `SL > thresholdLow * multiplier`. -/
def isNegativeAnomaly (s : AdaptiveCUSUM) (multiplier : ℚ) : Bool :=
  decide (s.thresholdLow * multiplier < s.SL)

/-- `AdaptiveCUSUM::setThresholdHigh`. -/
def setThresholdHigh (s : AdaptiveCUSUM) (threshold : ℚ) : AdaptiveCUSUM :=
  { s with thresholdHigh := threshold }

/-- `AdaptiveCUSUM::setThresholdLow`. -/
def setThresholdLow (s : AdaptiveCUSUM) (threshold : ℚ) : AdaptiveCUSUM :=
  { s with thresholdLow := threshold }

/-- Folding `process` over a list of `(currentValue, learning)` samples. -/
def processList (sqrtQ : ℚ → ℚ) (s : AdaptiveCUSUM) (inputs : List (ℚ × Bool)) :
    AdaptiveCUSUM :=
  inputs.foldl (fun a p => process sqrtQ a p.1 p.2) s

end AdaptiveCUSUM

/-- `getQuantileSortedVec` from common.h: linear interpolation at position
`(n − 1) · q` in an ascending-sorted vector.  The `float → uint32_t` cast of
the nonnegative `index` truncates, i.e. takes the floor.  Callers guarantee a
nonempty vector; out-of-range accesses default to `0`. -/
def getQuantileSortedVec (sortedVec : List ℚ) (quantile : ℚ) : ℚ :=
  let index : ℚ := ((sortedVec.length : ℚ) - 1) * quantile
  let lowerIndex : ℕ := (⌊index⌋).toNat
  let upperIndex : ℕ := lowerIndex + 1
  let interp : ℚ := index - (lowerIndex : ℚ)
  if sortedVec.length ≤ upperIndex then
    sortedVec.getLastD 0
  else
    sortedVec.getD lowerIndex 0 * (1 - interp) + sortedVec.getD upperIndex 0 * interp

/-- `ddosDetector::getQuantileThresholdLow`: collects the positive `maxSH`
values (sic — see the swap note in the spec), sorts them ascending and takes
the configured quantile; `0` when no value is positive. -/
def getQuantileThresholdLow (allCusums : List AdaptiveCUSUM) (quantile : ℚ) : ℚ :=
  let tresholdsHigh := (allCusums.filter (fun s => decide (0 < s.maxSH))).map (·.maxSH)
  if tresholdsHigh = [] then 0
  else getQuantileSortedVec (tresholdsHigh.mergeSort (fun a b => decide (a ≤ b))) quantile

/-- `ddosDetector::getQuantileThresholdHigh`: collects the positive `maxSL`
values (sic — see the swap note in the spec), sorts them ascending and takes
the configured quantile; `0` when no value is positive. -/
def getQuantileThresholdHigh (allCusums : List AdaptiveCUSUM) (quantile : ℚ) : ℚ :=
  let tresholdsLow := (allCusums.filter (fun s => decide (0 < s.maxSL))).map (·.maxSL)
  if tresholdsLow = [] then 0
  else getQuantileSortedVec (tresholdsLow.mergeSort (fun a b => decide (a ≤ b))) quantile

/-- The high-threshold backfill value as the claim words it: the configured
quantile of the positive `maxSH` values.  Stated only to be compared against
the source's `getQuantileThresholdHigh`. -/
def getQuantileThresholdHighClaim (allCusums : List AdaptiveCUSUM) (quantile : ℚ) : ℚ :=
  let positives := (allCusums.filter (fun s => decide (0 < s.maxSH))).map (·.maxSH)
  if positives = [] then 0
  else getQuantileSortedVec (positives.mergeSort (fun a b => decide (a ≤ b))) quantile

/-- `dos_alert_t` from ddosDetector.h (thresholds, measured statistics,
destination, column, reversed sources). -/
structure dos_alert where
  thresholdBytes : ℚ
  thresholdPackets : ℚ
  thresholdBytesReceivedToSent : ℚ
  thresholdFlowsReceivedToSent : ℚ
  thresholdEntropy : ℚ
  measuredBytes : ℚ
  measuredPackets : ℚ
  measuredBytesReceivedToSent : ℚ
  measuredFlowsReceivedToSent : ℚ
  measuredEntropy : ℚ
  dstIP : ℕ
  cusumID : ℕ
  srcIPs : Finset ℕ

/-- The insertion loop of `ddosDetector::getTopNSrcIPs` over the sorted list:
skip whitelisted sources, insert the rest, stop once the set reaches size `n`. -/
def topNLoop (wl : ℕ → Bool) (n : ℕ) : List (ℕ × ℕ) → Finset ℕ → Finset ℕ
  | [], acc => acc
  | p :: rest, acc =>
    if wl p.1 then topNLoop wl n rest acc
    else
      let acc' := insert p.1 acc
      if acc'.card = n then acc' else topNLoop wl n rest acc'

/-- `ddosDetector::getTopNSrcIPs`: sorts the reversed sources by flow count
descending (comparator `a.second > b.second`), then collects up to `n`
non-whitelisted source IPs. -/
def getTopNSrcIPs (wl : ℕ → Bool) (n : ℕ) (srcIPsCommWithDst : List (ℕ × ℕ)) : Finset ℕ :=
  topNLoop wl n (srcIPsCommWithDst.mergeSort (fun a b => decide (b.2 ≤ a.2))) ∅

/-- `ddosDetector::detectAnomaly(maxIP, column, srcIPsCommWithDst)`: when all
five per-column CUSUMs flag a positive anomaly at the sensitivity multiplier of
`maxIP` and the top-N non-whitelisted source set is nonempty, builds the alert
that is pushed onto `dosAlertsQueue` (returned as `some`); otherwise `none`. -/
def detectAnomaly (getMult : ℕ → ℚ) (wl : ℕ → Bool) (n : ℕ)
    (cusumBytes cusumPackets cusumEntropy cusumBytesReceivedToSent
      cusumFlowsReceivedToSent : ℕ → AdaptiveCUSUM)
    (maxIP column : ℕ) (srcIPsCommWithDst : List (ℕ × ℕ)) : Option dos_alert :=
  let multiplier := getMult maxIP
  if (cusumBytes column).isPositiveAnomaly multiplier ∧
     (cusumPackets column).isPositiveAnomaly multiplier ∧
     (cusumBytesReceivedToSent column).isPositiveAnomaly multiplier ∧
     (cusumFlowsReceivedToSent column).isPositiveAnomaly multiplier ∧
     (cusumEntropy column).isPositiveAnomaly multiplier then
    let srcIPsRes := getTopNSrcIPs wl n srcIPsCommWithDst
    if srcIPsRes.Nonempty then
      some
        { thresholdBytes := (cusumBytes column).thresholdHigh * multiplier
          thresholdPackets := (cusumPackets column).thresholdHigh * multiplier
          thresholdBytesReceivedToSent :=
            (cusumBytesReceivedToSent column).thresholdHigh * multiplier
          thresholdFlowsReceivedToSent :=
            (cusumFlowsReceivedToSent column).thresholdHigh * multiplier
          thresholdEntropy := (cusumEntropy column).thresholdHigh * multiplier
          measuredBytes := (cusumBytes column).SH
          measuredPackets := (cusumPackets column).SH
          measuredBytesReceivedToSent := (cusumBytesReceivedToSent column).SH
          measuredFlowsReceivedToSent := (cusumFlowsReceivedToSent column).SH
          measuredEntropy := (cusumEntropy column).SH
          dstIP := maxIP
          cusumID := column
          srcIPs := srcIPsRes }
    else none
  else none

/-- The alert guard of `ddosDetector::detectionProcess` for one column `j`:
`detectAnomaly` runs only when thresholds are installed and the quiet period
has elapsed (`cusumBytes[j].getLastAlert() + timeBetweenAlertsSecs < currTime`). -/
def columnAlertCheck (getMult : ℕ → ℚ) (wl : ℕ → Bool) (n : ℕ)
    (cusumBytes cusumPackets cusumEntropy cusumBytesReceivedToSent
      cusumFlowsReceivedToSent : ℕ → AdaptiveCUSUM)
    (thresholdSet : Bool) (currTime timeBetweenAlertsSecs : ℤ)
    (maxIP j : ℕ) (reversedSrcIPs : List (ℕ × ℕ)) : Option dos_alert :=
  if thresholdSet = true ∧ (cusumBytes j).lastAlert + timeBetweenAlertsSecs < currTime then
    detectAnomaly getMult wl n cusumBytes cusumPackets cusumEntropy
      cusumBytesReceivedToSent cusumFlowsReceivedToSent maxIP j reversedSrcIPs
  else none

/-- The five per-column CUSUM vectors owned by the engine. -/
structure detectorCusums where
  cusumBytes : ℕ → AdaptiveCUSUM
  cusumPackets : ℕ → AdaptiveCUSUM
  cusumEntropy : ℕ → AdaptiveCUSUM
  cusumBytesReceivedToSent : ℕ → AdaptiveCUSUM
  cusumFlowsReceivedToSent : ℕ → AdaptiveCUSUM

/-- `ddosDetector::checkFalsePositives()`: `popped` is the result of
`dosFalsePositivesQueue.try_pop`.  On a popped record the five high thresholds
at column `cusumID` are set to the measured value divided by the sensitivity
multiplier of the record's destination IP. -/
def checkFalsePositives (getMult : ℕ → ℚ) (st : detectorCusums)
    (popped : Option dos_alert) : detectorCusums :=
  match popped with
  | none => st
  | some falsePositive =>
    let multiplier := getMult falsePositive.dstIP
    { cusumEntropy := fun j => if j = falsePositive.cusumID then
        (st.cusumEntropy j).setThresholdHigh (falsePositive.measuredEntropy / multiplier)
      else st.cusumEntropy j
      cusumBytes := fun j => if j = falsePositive.cusumID then
        (st.cusumBytes j).setThresholdHigh (falsePositive.measuredBytes / multiplier)
      else st.cusumBytes j
      cusumPackets := fun j => if j = falsePositive.cusumID then
        (st.cusumPackets j).setThresholdHigh (falsePositive.measuredPackets / multiplier)
      else st.cusumPackets j
      cusumBytesReceivedToSent := fun j => if j = falsePositive.cusumID then
        (st.cusumBytesReceivedToSent j).setThresholdHigh
          (falsePositive.measuredBytesReceivedToSent / multiplier)
      else st.cusumBytesReceivedToSent j
      cusumFlowsReceivedToSent := fun j => if j = falsePositive.cusumID then
        (st.cusumFlowsReceivedToSent j).setThresholdHigh
          (falsePositive.measuredFlowsReceivedToSent / multiplier)
      else st.cusumFlowsReceivedToSent j }

/-- One sketch cell: a hit counter plus the stored payload, as accessed by the
detector (`cell.count`, `cell.value`). -/
structure sketchCell (V : Type) where
  count : ℕ
  value : V

/-- Modelled from the spec: the `CountMinSketch` class (CountMinSketch.h) is not
among the sources; only its callers are.  Per the spec's data model, a CMS is a
`depth × width` table of cells with one hash seed per row; the cell an insert
hits on row `i` is column `h_i(k) mod width`; `update` increments every row's
cell count and updates the payload; `estimate` returns the `(row, col)` whose
cell has the minimum count, ties broken by the lowest row index; `dec`
subtracts a cell from every row.  The per-instance hash family is the
parameter `hash : row → key → ℕ`. -/
structure CountMinSketch (V : Type) where
  depth : ℕ
  width : ℕ
  hash : ℕ → ℕ → ℕ
  cells : ℕ → ℕ → sketchCell V

namespace CountMinSketch

/-- `getCol(k, i)`: column of key `k` on row `i`. -/
def getCol (s : CountMinSketch V) (k i : ℕ) : ℕ :=
  s.hash i k % s.width

/-- Modelled from the spec: `update(k, payload)` bumps the count and applies the
payload update `f` at `(i, h_i(k) mod width)` for every row `i < depth`. -/
def update (s : CountMinSketch V) (k : ℕ) (f : V → V) : CountMinSketch V :=
  { s with cells := fun i c =>
      if i < s.depth ∧ c = s.getCol k i then
        ⟨(s.cells i c).count + 1, f (s.cells i c).value⟩
      else s.cells i c }

/-- Modelled from the spec: `estimate(k)` returns the `(row, col)` of minimum
cell count among the rows' cells for `k`, ties broken by the lowest row. -/
def estimate (s : CountMinSketch V) (k : ℕ) : ℕ × ℕ :=
  ((List.range s.depth).map fun i => (i, s.getCol k i)).foldl
    (fun best rc =>
      if (s.cells rc.1 rc.2).count < (s.cells best.1 best.2).count then rc else best)
    (0, s.getCol k 0)

/-- Modelled from the spec: `dec(k, cell)` subtracts the given cell (count and
payload, via the payload subtraction `fsub`) on every row at `k`'s column. -/
def dec (s : CountMinSketch V) (k : ℕ) (cl : sketchCell V) (fsub : V → V → V) :
    CountMinSketch V :=
  { s with cells := fun i c =>
      if i < s.depth ∧ c = s.getCol k i then
        ⟨(s.cells i c).count - cl.count, fsub (s.cells i c).value cl.value⟩
      else s.cells i c }

/-- In-place mutation of one cell's payload, as in
`dstIPs[i][dstIPidx].value.updateFlowCounter(...)`: the count is untouched. -/
def modifyValue (s : CountMinSketch V) (row col : ℕ) (f : V → V) : CountMinSketch V :=
  { s with cells := fun i c =>
      if i = row ∧ c = col then ⟨(s.cells i c).count, f (s.cells i c).value⟩
      else s.cells i c }

/-- A sketch with all cells empty (the state after `reset()` / construction). -/
def empty (V : Type) (depth width : ℕ) (hash : ℕ → ℕ → ℕ) (v0 : V) :
    CountMinSketch V :=
  ⟨depth, width, hash, fun _ _ => ⟨0, v0⟩⟩

end CountMinSketch

/-- The live sketch pair owned by the ingress (`dstIPs`, `srcIPs` members of
`ddosDetector`). -/
structure detectorSketches where
  dstIPs : CountMinSketch ddosDetectorValue
  srcIPs : CountMinSketch (binCountSketchValue 32)

/-- `ddosDetector::updateCommunicatedWith(srcIP, dstIP, bytes, isDst)`: for every
row `i` of the destination sketch, either records the peer source-cell index in
the matching destination cell (`isDst`), or accumulates sent bytes into the
cell keyed by the source's /24 (`!isDst`).  Only cell payloads are mutated. -/
def updateCommunicatedWith (st : detectorSketches) (srcIP dstIP bytes : ℕ)
    (isDst : Bool) : detectorSketches :=
  (List.range st.dstIPs.depth).foldl
    (fun acc i =>
      if isDst then
        let srcIPidx := acc.srcIPs.getCol srcIP i
        let dstIPidx := acc.dstIPs.getCol (dstIP &&& 0xFFFFFF) i
        { acc with dstIPs :=
            acc.dstIPs.modifyValue i dstIPidx (fun v => v.updateFlowCounter srcIPidx) }
      else
        let dstIPidx := acc.dstIPs.getCol (srcIP &&& 0xFFFFFF) i
        { acc with dstIPs :=
            acc.dstIPs.modifyValue i dstIPidx (fun v => v.updateSentBytes bytes) })
    st

/-- `ddosDetector::processCurrentFlow(record)`: protected-destination flows are
inserted into the destination sketch (keyed by the /24) and their peer is
recorded; protected-source flows accumulate sent bytes; all other flows are
dropped.  Both protected branches fall through to `srcIPs.update(srcAddr, 1)`
("src IPs always updated"). -/
def processCurrentFlow (prot : ℕ → Bool) (st : detectorSketches)
    (record : netflowRecord) : detectorSketches :=
  if prot record.dstAddr then
    let dst' := st.dstIPs.update (record.dstAddr &&& 0xFFFFFF)
      (fun v => v.update (record.dstAddr &&& 0xFFFFFF) record)
    let st1 := { st with dstIPs := dst' }
    let st2 := updateCommunicatedWith st1 record.srcAddr record.dstAddr record.bytes true
    { st2 with srcIPs :=
        st2.srcIPs.update record.srcAddr (fun b => b.update record.srcAddr 1) }
  else if prot record.srcAddr then
    let st2 := updateCommunicatedWith st record.srcAddr record.dstAddr record.bytes false
    { st2 with srcIPs :=
        st2.srcIPs.update record.srcAddr (fun b => b.update record.srcAddr 1) }
  else st

/-- The inner `while` loop of `ddosDetector::reverseSrcIPs` for one
`communicatedWith` entry, with explicit fuel (the C++ loop has no structural
variant).  The body never mutates `srcIPsCopy`, so the tested count is
constant. -/
def srcLoopFuel (srcIPsCopy : CountMinSketch (binCountSketchValue 32))
    (row idx flows : ℕ) : ℕ → ℕ → List (ℕ × ℕ)
  | 0, _ => []
  | fuel + 1, prevCnt =>
    if prevCnt = (srcIPsCopy.cells row idx).count then []
    else
      let prevCnt' := (srcIPsCopy.cells row idx).count
      let recoveredSrcIP := (srcIPsCopy.cells row idx).value.reverseKey
      let recoveredIPCell := srcIPsCopy.estimate recoveredSrcIP
      if (srcIPsCopy.cells recoveredIPCell.1 recoveredIPCell.2).count = 0 then []
      else (recoveredSrcIP, flows) :: srcLoopFuel srcIPsCopy row idx flows fuel prevCnt'

/-- `ddosDetector::reverseSrcIPs`: for every `communicatedWith` entry
`(srcIPidx, flows)` runs the reversal loop on the source-sketch cell at row
`rows.at(srcIPidx)` and appends the recovered pairs. -/
def reverseSrcIPsFuel (fuel : ℕ) (srcIPsCopy : CountMinSketch (binCountSketchValue 32))
    (rows : ℕ → ℕ) (communicatedWith : List (ℕ × ℕ)) : List (ℕ × ℕ) :=
  communicatedWith.foldl
    (fun acc e => acc ++ srcLoopFuel srcIPsCopy (rows e.1) e.1 e.2 fuel 0) []

/-- The mutable state of the `ddosDetector::reverseAllKeys` loop. -/
structure rakState where
  prevCnt : ℕ
  dst : CountMinSketch ddosDetectorValue
  resultCell : ddosDetectorValue
  maxIP : ℕ
  maxIPBytes : ℕ
  rows : ℕ → ℕ

/-- The `while` loop of `ddosDetector::reverseAllKeys` on `column`, with
explicit fuel: reverse the row-0 cell to a candidate /24, estimate it, stop on
an empty estimate or an unprotected candidate, otherwise accumulate the
estimated cell into the result and decrement it from the sketch on all rows,
remembering each communicating source cell's row. -/
def rakLoopFuel (prot : ℕ → Bool) (column : ℕ) : ℕ → rakState → rakState
  | 0, st => st
  | fuel + 1, st =>
    if st.prevCnt = (st.dst.cells 0 column).count then st
    else
      let prevCnt' := (st.dst.cells 0 column).count
      let dstAddr := (st.dst.cells 0 column).value.reverseKey
      let candidate := dstAddr &&& 0xFFFFFF
      let indices := st.dst.estimate candidate
      let cell := st.dst.cells indices.1 indices.2
      if cell.count = 0 ∨ prot candidate = false then
        { st with prevCnt := prevCnt' }
      else
        let maxPair : ℕ × ℕ :=
          if st.maxIPBytes < cell.value.byteCount then (candidate, cell.value.byteCount)
          else (st.maxIP, st.maxIPBytes)
        let rows' : ℕ → ℕ :=
          fun k => if (cell.value.communicatedWith k).isSome then indices.1 else st.rows k
        rakLoopFuel prot column fuel
          { prevCnt := prevCnt'
            dst := st.dst.dec candidate cell ddosDetectorValue.sub
            resultCell := st.resultCell.add cell.value
            maxIP := maxPair.1
            maxIPBytes := maxPair.2
            rows := rows' }

/-- `ddosDetector::reverseAllKeys` up to (and including) the early return on
`maxIP == 0`; the trailing `reverseSrcIPs` call only appends to the output
vector (see `reverseSrcIPsFuel`) and mutates neither the sketch nor the result
cell. -/
def reverseAllKeysFuel (fuel : ℕ) (prot : ℕ → Bool)
    (dstIPs : CountMinSketch ddosDetectorValue) (column : ℕ) : rakState :=
  rakLoopFuel prot column fuel
    ⟨0, dstIPs, ddosDetectorValue.init, 0, 0, fun _ => 0⟩

lemma bitsToNat_lt (f : ℕ → Bool) (n : ℕ) : bitsToNat f n < 2 ^ n := by
  induction n with
  | zero => simp [bitsToNat]
  | succ n ih =>
    have h2 : (2:ℕ) ^ (n + 1) = 2 ^ n + 2 ^ n := by ring
    simp only [bitsToNat]
    split <;> omega

lemma bitsToNat_congr {f g : ℕ → Bool} (n : ℕ) (h : ∀ i, i < n → f i = g i) :
    bitsToNat f n = bitsToNat g n := by
  induction n with
  | zero => rfl
  | succ n ih =>
    simp only [bitsToNat]
    rw [ih (fun i hi => h i (Nat.lt_succ_of_lt hi)), h n (Nat.lt_succ_self n)]

lemma testBit_bitsToNat (f : ℕ → Bool) (n i : ℕ) (h : i < n) :
    (bitsToNat f n).testBit i = f i := by
  induction n with
  | zero => omega
  | succ n ih =>
    simp only [bitsToNat]
    rcases Nat.lt_succ_iff_lt_or_eq.mp h with h' | h'
    · by_cases hf : f n
      · rw [if_pos hf, Nat.add_comm, Nat.testBit_two_pow_add_gt h', ih h']
      · rw [if_neg hf, Nat.add_zero, ih h']
    · subst h'
      by_cases hf : f i
      · have hb := bitsToNat_lt f i
        have heq : bitsToNat f i + 2 ^ i = 2 ^ i * 1 + bitsToNat f i := by ring
        rw [if_pos hf, heq, Nat.testBit_mul_pow_two_add 1 hb i]
        simp [hf]
      · have hb := bitsToNat_lt f i
        simp only [Bool.not_eq_true] at hf
        rw [if_neg (by simp [hf]), Nat.add_zero, Nat.testBit_lt_two_pow hb, hf]

lemma testBit_bitsToNat_ge (f : ℕ → Bool) (n i : ℕ) (h : n ≤ i) :
    (bitsToNat f n).testBit i = false :=
  Nat.testBit_lt_two_pow (lt_of_lt_of_le (bitsToNat_lt f n)
    (Nat.pow_le_pow_right (by norm_num) h))

lemma bitsToNat_testBit_self (k n : ℕ) (h : k < 2 ^ n) :
    bitsToNat (fun i => k.testBit i) n = k := by
  refine Nat.eq_of_testBit_eq fun i => ?_
  by_cases hi : i < n
  · exact testBit_bitsToNat _ n i hi
  · rw [testBit_bitsToNat_ge _ n i (le_of_not_lt hi),
      Nat.testBit_lt_two_pow (lt_of_lt_of_le h (Nat.pow_le_pow_right (by norm_num)
        (le_of_not_lt hi)))]

lemma bitsToNat_mod (f : ℕ → Bool) {n m : ℕ} (h : n ≤ m) :
    bitsToNat f m % 2 ^ n = bitsToNat f n := by
  refine Nat.eq_of_testBit_eq fun i => ?_
  rw [Nat.testBit_mod_two_pow]
  by_cases hi : i < n
  · simp [hi, testBit_bitsToNat f m i (lt_of_lt_of_le hi h), testBit_bitsToNat f n i hi]
  · simp [hi, testBit_bitsToNat_ge f n i (le_of_not_lt hi)]

/-- The state of a fresh `binCountSketchValue` after a list of updates that all
carry the same key. -/
lemma bcv_updates_single_key {N : ℕ} (k : ℕ) (vs : List ℕ) :
    (vs.foldl (fun b v => b.update k v) (binCountSketchValue.init N 0)).totalCount
      = vs.sum ∧
    ∀ i, (vs.foldl (fun b v => b.update k v) (binCountSketchValue.init N 0)).binCount i
      = if i < N ∧ k.testBit i then vs.sum else 0 := by
  suffices h : ∀ (b : binCountSketchValue N),
      (vs.foldl (fun b v => b.update k v) b).totalCount = b.totalCount + vs.sum ∧
      ∀ i, (vs.foldl (fun b v => b.update k v) b).binCount i
        = if i < N ∧ k.testBit i then b.binCount i + vs.sum else b.binCount i by
    obtain ⟨h1, h2⟩ := h (binCountSketchValue.init N 0)
    refine ⟨by simpa [binCountSketchValue.init] using h1, fun i => ?_⟩
    rw [h2 i]
    by_cases hi : i < N ∧ k.testBit i
    · simp [hi, binCountSketchValue.init, hi.1]
    · simp only [if_neg hi, binCountSketchValue.init]
      split <;> rfl
  induction vs with
  | nil => simp
  | cons v vs ih =>
    intro b
    obtain ⟨ih1, ih2⟩ := ih (b.update k v)
    constructor
    · rw [List.foldl_cons, ih1]
      simp only [binCountSketchValue.update, List.sum_cons]
      ring
    · intro i
      rw [List.foldl_cons, ih2 i]
      simp only [binCountSketchValue.update, List.sum_cons]
      by_cases hi : i < N ∧ k.testBit i
      · simp only [if_pos hi]
        ring
      · simp only [if_neg hi]

/-- C6: if a fresh bin-count sketch value receives only updates with the single
`N`-bit key `k`, of positive total weight, then `reverseKey()` returns `k`
exactly; and in general bit `i < N` of the returned key is set iff
`binCount[i] > totalCount / 2`. -/
theorem bcv_reverseKey_single_key (N k : ℕ) (vs : List ℕ) (hk : k < 2 ^ N)
    (hT : 0 < vs.sum) :
    (vs.foldl (fun b v => b.update k v) (binCountSketchValue.init N 0)).reverseKey = k ∧
    ∀ (b : binCountSketchValue N) (i : ℕ), i < N →
      b.reverseKey.testBit i = decide (b.totalCount / 2 < b.binCount i) := by
  constructor
  · obtain ⟨h1, h2⟩ := bcv_updates_single_key (N := N) k vs
    unfold binCountSketchValue.reverseKey
    rw [h1]
    have hmaj : ∀ i, i < N →
        (decide (vs.sum / 2 < (vs.foldl (fun b v => b.update k v)
          (binCountSketchValue.init N 0)).binCount i)) = k.testBit i := by
      intro i hi
      rw [h2 i]
      by_cases hbit : k.testBit i
      · simp only [hi, hbit, and_self, if_true, true_and, if_pos]
        exact decide_eq_true (Nat.div_lt_self hT (by norm_num))
      · simp only [hbit, and_false, if_false]
        simp
    calc bitsToNat (fun i => decide (vs.sum / 2 < (vs.foldl (fun b v => b.update k v)
            (binCountSketchValue.init N 0)).binCount i)) N
        = bitsToNat (fun i => k.testBit i) N := bitsToNat_congr N hmaj
      _ = k := bitsToNat_testBit_self k N hk
  · intro b i hi
    exact testBit_bitsToNat _ N i hi

theorem bcv_reverseKey_single_key_witness :
    ((5 : ℕ) < 2 ^ 4 ∧ 0 < [2, 1].sum) ∧
    ([2, 1].foldl (fun b v => b.update 5 v) (binCountSketchValue.init 4 0)).reverseKey
      = 5 :=
  ⟨⟨by norm_num, by norm_num⟩,
   (bcv_reverseKey_single_key 4 5 [2, 1] (by norm_num) (by norm_num)).1⟩

/-- C7: `ddosDetectorValue::operator-=` is saturating: every scalar field of the
result equals `max (a − b) 0` (computed in `ℤ`), never wrapping below zero, and
`communicatedWith`/`subnetHist` entries whose value would reach zero or below
are removed while surviving decremented entries stay positive. -/
theorem ddv_sub_saturating (a b : ddosDetectorValue) :
    ((a.sub b).byteCount : ℤ) = max ((a.byteCount : ℤ) - (b.byteCount : ℤ)) 0 ∧
    ((a.sub b).packetCount : ℤ) = max ((a.packetCount : ℤ) - (b.packetCount : ℤ)) 0 ∧
    ((a.sub b).flowCount : ℤ) = max ((a.flowCount : ℤ) - (b.flowCount : ℤ)) 0 ∧
    ((a.sub b).sentBytes : ℤ) = max ((a.sentBytes : ℤ) - (b.sentBytes : ℤ)) 0 ∧
    ((a.sub b).sentFlows : ℤ) = max ((a.sentFlows : ℤ) - (b.sentFlows : ℤ)) 0 ∧
    ((a.sub b).reversibleKey.totalCount : ℤ)
      = max ((a.reversibleKey.totalCount : ℤ) - (b.reversibleKey.totalCount : ℤ)) 0 ∧
    (∀ i, i < 32 → ((a.sub b).reversibleKey.binCount i : ℤ)
      = max ((a.reversibleKey.binCount i : ℤ) - (b.reversibleKey.binCount i : ℤ)) 0) ∧
    (∀ k va vb, a.communicatedWith k = some va → b.communicatedWith k = some vb →
      va ≤ vb → (a.sub b).communicatedWith k = none) ∧
    (∀ k vb w, b.communicatedWith k = some vb → (a.sub b).communicatedWith k = some w →
      0 < w) ∧
    (∀ k va vb, a.ipSubnets k = some va → b.ipSubnets k = some vb →
      va ≤ vb → (a.sub b).ipSubnets k = none) ∧
    (∀ k vb w, b.ipSubnets k = some vb → (a.sub b).ipSubnets k = some w → 0 < w) := by
  refine ⟨?_, ?_, ?_, ?_, ?_, ?_, ?_, ?_, ?_, ?_, ?_⟩
  · simp only [ddosDetectorValue.sub]; split <;> omega
  · simp only [ddosDetectorValue.sub]; split <;> omega
  · simp only [ddosDetectorValue.sub]; split <;> omega
  · simp only [ddosDetectorValue.sub]; split <;> omega
  · simp only [ddosDetectorValue.sub]; split <;> omega
  · simp only [ddosDetectorValue.sub, binCountSketchValue.sub]; split <;> omega
  · intro i hi
    simp only [ddosDetectorValue.sub, binCountSketchValue.sub, if_pos hi]
    split <;> omega
  · intro k va vb ha hb hle
    simp only [ddosDetectorValue.sub, mapSub, hb, ha]
    rw [if_neg (by omega)]
  · intro k vb w hb hw
    simp only [ddosDetectorValue.sub, mapSub, hb] at hw
    split at hw
    · exact absurd hw (by simp)
    · split at hw
      · rename_i hc
        rw [Option.some_inj] at hw
        omega
      · exact absurd hw (by simp)
  · intro k va vb ha hb hle
    simp only [ddosDetectorValue.sub, mapSub, hb, ha]
    rw [if_neg (by omega)]
  · intro k vb w hb hw
    simp only [ddosDetectorValue.sub, mapSub, hb] at hw
    split at hw
    · exact absurd hw (by simp)
    · split at hw
      · rename_i hc
        rw [Option.some_inj] at hw
        omega
      · exact absurd hw (by simp)

theorem ddv_sub_saturating_witness :
    ((ddosDetectorValue.sub
        ⟨0, 0, 0, 3, 0, binCountSketchValue.init 32 0,
          fun k => if k = 0 then some 2 else none, fun _ => none⟩
        ⟨0, 0, 0, 5, 0, binCountSketchValue.init 32 0,
          fun k => if k = 0 then some 2 else none, fun _ => none⟩).byteCount : ℤ)
      = max ((3 : ℤ) - (5 : ℤ)) 0 ∧
    (ddosDetectorValue.sub
        ⟨0, 0, 0, 3, 0, binCountSketchValue.init 32 0,
          fun k => if k = 0 then some 2 else none, fun _ => none⟩
        ⟨0, 0, 0, 5, 0, binCountSketchValue.init 32 0,
          fun k => if k = 0 then some 2 else none, fun _ => none⟩).communicatedWith 0
      = none := by
  constructor
  · exact (ddv_sub_saturating _ _).1
  · exact (ddv_sub_saturating _ _).2.2.2.2.2.2.2.1 0 2 2 (by simp) (by simp) le_rfl

/-- C3: one `AdaptiveCUSUM::process` call.  The first call ever only installs
`m = x`, `v = 0`; each later call first applies the EWMA update to `m` and `v`
and then, exactly when `windowID ≥ span` or `learning` is false, applies the
CUSUM update to `SH`/`SL` using the just-updated `m` and `v`; `maxSH`/`maxSL`
always track the running maxima. -/
theorem acu_process_step (sqrtQ : ℚ → ℚ) (s : AdaptiveCUSUM) (x : ℚ) (learning : Bool) :
    (s.first = true →
      AdaptiveCUSUM.process sqrtQ s x learning
        = { s with m := x, v := 0, first := false }) ∧
    (s.first = false →
      (AdaptiveCUSUM.process sqrtQ s x learning).m = s.m + s.alpha * (x - s.m) ∧
      (AdaptiveCUSUM.process sqrtQ s x learning).v
        = (1 - s.alpha) * s.v + s.alpha * (x - s.m) ^ 2 ∧
      ((s.span ≤ s.windowID ∨ learning = false) →
        (AdaptiveCUSUM.process sqrtQ s x learning).SH
          = max 0 (s.SH + (x - (s.m + s.alpha * (x - s.m)))
              - s.c * sqrtQ ((1 - s.alpha) * s.v + s.alpha * (x - s.m) ^ 2)) ∧
        (AdaptiveCUSUM.process sqrtQ s x learning).SL
          = max 0 (s.SL - (x - (s.m + s.alpha * (x - s.m)))
              - s.c * sqrtQ ((1 - s.alpha) * s.v + s.alpha * (x - s.m) ^ 2))) ∧
      (¬(s.span ≤ s.windowID ∨ learning = false) →
        (AdaptiveCUSUM.process sqrtQ s x learning).SH = s.SH ∧
        (AdaptiveCUSUM.process sqrtQ s x learning).SL = s.SL) ∧
      (AdaptiveCUSUM.process sqrtQ s x learning).maxSH
        = max (AdaptiveCUSUM.process sqrtQ s x learning).SH s.maxSH ∧
      (AdaptiveCUSUM.process sqrtQ s x learning).maxSL
        = max (AdaptiveCUSUM.process sqrtQ s x learning).SL s.maxSL ∧
      (AdaptiveCUSUM.process sqrtQ s x learning).windowID = s.windowID + 1) := by
  have harg : (1 - s.alpha) * s.v + s.alpha * (x - s.m) * (x - s.m)
      = (1 - s.alpha) * s.v + s.alpha * (x - s.m) ^ 2 := by ring
  constructor
  · intro h
    rw [AdaptiveCUSUM.process, if_pos h]
  · intro h
    by_cases hg : learning = false ∨ s.span ≤ s.windowID
    · rw [AdaptiveCUSUM.process, if_neg (by simp [h]), if_pos hg]
      refine ⟨rfl, by rw [harg], fun _ => ⟨by rw [harg], by rw [harg]⟩,
        fun hng => absurd (Or.symm hg) hng, rfl, rfl, rfl⟩
    · rw [AdaptiveCUSUM.process, if_neg (by simp [h]), if_neg hg]
      refine ⟨rfl, by rw [harg], fun hg' => absurd (Or.symm hg') hg,
        fun _ => ⟨rfl, rfl⟩, rfl, rfl, rfl⟩

theorem acu_process_step_witness :
    (AdaptiveCUSUM.process (fun q => q)
      ⟨1, 1/2, 2, 0, 0, 0, false, 0, 0, 0, 0, 0, 0, 0⟩ 4 false).m
      = 2 + (1/2 : ℚ) * (4 - 2) :=
  ((acu_process_step (fun q => q)
      ⟨1, 1/2, 2, 0, 0, 0, false, 0, 0, 0, 0, 0, 0, 0⟩ 4 false).2 rfl).1

/-- The inductive invariant of C8: the CUSUM statistics are nonnegative and
bounded by their running maxima. -/
def acuInv (s : AdaptiveCUSUM) : Prop :=
  0 ≤ s.SH ∧ 0 ≤ s.SL ∧ s.SH ≤ s.maxSH ∧ s.SL ≤ s.maxSL

lemma acuInv_process (sqrtQ : ℚ → ℚ) (s : AdaptiveCUSUM) (x : ℚ) (learning : Bool)
    (h : acuInv s) :
    acuInv (AdaptiveCUSUM.process sqrtQ s x learning) ∧
    s.maxSH ≤ (AdaptiveCUSUM.process sqrtQ s x learning).maxSH ∧
    s.maxSL ≤ (AdaptiveCUSUM.process sqrtQ s x learning).maxSL := by
  obtain ⟨h1, h2, h3, h4⟩ := h
  rw [AdaptiveCUSUM.process]
  by_cases hf : s.first
  · rw [if_pos hf]
    exact ⟨⟨h1, h2, h3, h4⟩, le_refl _, le_refl _⟩
  · rw [if_neg hf]
    by_cases hg : learning = false ∨ s.span ≤ s.windowID
    · rw [if_pos hg]
      refine ⟨⟨le_max_left _ _, le_max_left _ _, le_max_left _ _, le_max_left _ _⟩,
        le_max_right _ _, le_max_right _ _⟩
    · rw [if_neg hg]
      exact ⟨⟨h1, h2, le_max_left _ _, le_max_left _ _⟩,
        le_max_right _ _, le_max_right _ _⟩

lemma acuInv_processList (sqrtQ : ℚ → ℚ) (inputs : List (ℚ × Bool))
    (s : AdaptiveCUSUM) (h : acuInv s) :
    acuInv (AdaptiveCUSUM.processList sqrtQ s inputs) ∧
    s.maxSH ≤ (AdaptiveCUSUM.processList sqrtQ s inputs).maxSH ∧
    s.maxSL ≤ (AdaptiveCUSUM.processList sqrtQ s inputs).maxSL := by
  induction inputs generalizing s with
  | nil => exact ⟨h, le_refl _, le_refl _⟩
  | cons p rest ih =>
    obtain ⟨hstep, hsh, hsl⟩ := acuInv_process sqrtQ s p.1 p.2 h
    obtain ⟨hinv, hsh', hsl'⟩ := ih (AdaptiveCUSUM.process sqrtQ s p.1 p.2) hstep
    exact ⟨hinv, le_trans hsh hsh', le_trans hsl hsl'⟩

/-- C8: along any `process` trace from a freshly constructed CUSUM, `SH` and
`SL` stay nonnegative, `maxSH`/`maxSL` are non-decreasing, and the maxima
dominate the `SH`/`SL` value observed after every earlier (or equal) number of
calls. -/
theorem acu_trace_invariant (sqrtQ : ℚ → ℚ) (c alpha : ℚ) (span : ℕ) (m0 v0 : ℚ)
    (inputs : List (ℚ × Bool)) (i j : ℕ) (hij : i ≤ j) :
    0 ≤ (AdaptiveCUSUM.processList sqrtQ (AdaptiveCUSUM.init c alpha span m0 v0)
        (inputs.take j)).SH ∧
    0 ≤ (AdaptiveCUSUM.processList sqrtQ (AdaptiveCUSUM.init c alpha span m0 v0)
        (inputs.take j)).SL ∧
    (AdaptiveCUSUM.processList sqrtQ (AdaptiveCUSUM.init c alpha span m0 v0)
        (inputs.take i)).SH
      ≤ (AdaptiveCUSUM.processList sqrtQ (AdaptiveCUSUM.init c alpha span m0 v0)
        (inputs.take j)).maxSH ∧
    (AdaptiveCUSUM.processList sqrtQ (AdaptiveCUSUM.init c alpha span m0 v0)
        (inputs.take i)).SL
      ≤ (AdaptiveCUSUM.processList sqrtQ (AdaptiveCUSUM.init c alpha span m0 v0)
        (inputs.take j)).maxSL ∧
    (AdaptiveCUSUM.processList sqrtQ (AdaptiveCUSUM.init c alpha span m0 v0)
        (inputs.take i)).maxSH
      ≤ (AdaptiveCUSUM.processList sqrtQ (AdaptiveCUSUM.init c alpha span m0 v0)
        (inputs.take j)).maxSH ∧
    (AdaptiveCUSUM.processList sqrtQ (AdaptiveCUSUM.init c alpha span m0 v0)
        (inputs.take i)).maxSL
      ≤ (AdaptiveCUSUM.processList sqrtQ (AdaptiveCUSUM.init c alpha span m0 v0)
        (inputs.take j)).maxSL := by
  have h0 : acuInv (AdaptiveCUSUM.init c alpha span m0 v0) := by
    refine ⟨le_refl _, le_refl _, le_refl _, le_refl _⟩
  obtain ⟨hi, _, _⟩ :=
    acuInv_processList sqrtQ (inputs.take i) (AdaptiveCUSUM.init c alpha span m0 v0) h0
  have hsplit : inputs.take j = inputs.take i ++ (inputs.drop i).take (j - i) := by
    rw [← List.take_add]
    congr 1
    omega
  have hcomp : AdaptiveCUSUM.processList sqrtQ (AdaptiveCUSUM.init c alpha span m0 v0)
      (inputs.take j)
      = AdaptiveCUSUM.processList sqrtQ
          (AdaptiveCUSUM.processList sqrtQ (AdaptiveCUSUM.init c alpha span m0 v0)
            (inputs.take i))
          ((inputs.drop i).take (j - i)) := by
    rw [AdaptiveCUSUM.processList, hsplit, List.foldl_append]
    rfl
  obtain ⟨hj, hsh, hsl⟩ := acuInv_processList sqrtQ ((inputs.drop i).take (j - i))
    (AdaptiveCUSUM.processList sqrtQ (AdaptiveCUSUM.init c alpha span m0 v0)
      (inputs.take i)) hi
  rw [hcomp]
  exact ⟨hj.1, hj.2.1, le_trans hi.2.2.1 hsh, le_trans hi.2.2.2 hsl, hsh, hsl⟩

theorem acu_trace_invariant_witness :
    0 ≤ (AdaptiveCUSUM.processList (fun q => q) (AdaptiveCUSUM.init 1 (1/2) 0 0 0)
        ([(4, false), (10, false)].take 2)).SH :=
  (acu_trace_invariant (fun q => q) 1 (1/2) 0 0 0 [(4, false), (10, false)] 1 2
    (by norm_num)).1

/-- C4: after dequeuing a pending false-positive record, each of the five ACUs
at column `cusumID` has its high threshold set to the corresponding measured
value divided by the sensitivity multiplier of the record's destination, and
the ACUs of every other column are unmodified. -/
theorem checkFalsePositives_spec (getMult : ℕ → ℚ) (st : detectorCusums)
    (fp : dos_alert) :
    ((checkFalsePositives getMult st (some fp)).cusumBytes fp.cusumID).thresholdHigh
      = fp.measuredBytes / getMult fp.dstIP ∧
    ((checkFalsePositives getMult st (some fp)).cusumPackets fp.cusumID).thresholdHigh
      = fp.measuredPackets / getMult fp.dstIP ∧
    ((checkFalsePositives getMult st (some fp)).cusumEntropy fp.cusumID).thresholdHigh
      = fp.measuredEntropy / getMult fp.dstIP ∧
    ((checkFalsePositives getMult st
        (some fp)).cusumBytesReceivedToSent fp.cusumID).thresholdHigh
      = fp.measuredBytesReceivedToSent / getMult fp.dstIP ∧
    ((checkFalsePositives getMult st
        (some fp)).cusumFlowsReceivedToSent fp.cusumID).thresholdHigh
      = fp.measuredFlowsReceivedToSent / getMult fp.dstIP ∧
    (∀ j, j ≠ fp.cusumID →
      (checkFalsePositives getMult st (some fp)).cusumBytes j = st.cusumBytes j ∧
      (checkFalsePositives getMult st (some fp)).cusumPackets j = st.cusumPackets j ∧
      (checkFalsePositives getMult st (some fp)).cusumEntropy j = st.cusumEntropy j ∧
      (checkFalsePositives getMult st (some fp)).cusumBytesReceivedToSent j
        = st.cusumBytesReceivedToSent j ∧
      (checkFalsePositives getMult st (some fp)).cusumFlowsReceivedToSent j
        = st.cusumFlowsReceivedToSent j) := by
  refine ⟨?_, ?_, ?_, ?_, ?_, fun j hj => ?_⟩
  · simp [checkFalsePositives, AdaptiveCUSUM.setThresholdHigh]
  · simp [checkFalsePositives, AdaptiveCUSUM.setThresholdHigh]
  · simp [checkFalsePositives, AdaptiveCUSUM.setThresholdHigh]
  · simp [checkFalsePositives, AdaptiveCUSUM.setThresholdHigh]
  · simp [checkFalsePositives, AdaptiveCUSUM.setThresholdHigh]
  · refine ⟨?_, ?_, ?_, ?_, ?_⟩ <;>
      simp [checkFalsePositives, AdaptiveCUSUM.setThresholdHigh, hj]

theorem checkFalsePositives_spec_witness :
    ((checkFalsePositives (fun _ => 2)
        ⟨fun _ => AdaptiveCUSUM.init 1 1 1 0 0, fun _ => AdaptiveCUSUM.init 1 1 1 0 0,
         fun _ => AdaptiveCUSUM.init 1 1 1 0 0, fun _ => AdaptiveCUSUM.init 1 1 1 0 0,
         fun _ => AdaptiveCUSUM.init 1 1 1 0 0⟩
        (some ⟨0, 0, 0, 0, 0, 6, 0, 0, 0, 0, 9, 4, ∅⟩)).cusumBytes 4).thresholdHigh
      = 6 / 2 ∧
    ((checkFalsePositives (fun _ => 2)
        ⟨fun _ => AdaptiveCUSUM.init 1 1 1 0 0, fun _ => AdaptiveCUSUM.init 1 1 1 0 0,
         fun _ => AdaptiveCUSUM.init 1 1 1 0 0, fun _ => AdaptiveCUSUM.init 1 1 1 0 0,
         fun _ => AdaptiveCUSUM.init 1 1 1 0 0⟩
        (some ⟨0, 0, 0, 0, 0, 6, 0, 0, 0, 0, 9, 4, ∅⟩)).cusumBytes 7)
      = AdaptiveCUSUM.init 1 1 1 0 0 := by
  constructor
  · exact (checkFalsePositives_spec (fun _ => 2) _ _).1
  · exact ((checkFalsePositives_spec (fun _ => 2) _
      ⟨0, 0, 0, 0, 0, 6, 0, 0, 0, 0, 9, 4, ∅⟩).2.2.2.2.2 7 (by norm_num)).1

/-- C2 evaluation: on a fleet where only the first ACU saw a positive `maxSH`
(= 5) and only the second a positive `maxSL` (= 3), the source's
`getQuantileThresholdHigh` aggregates the `maxSL` values and yields 3, while
the claim's backfill (quantile of the positive `maxSH` values) yields 5. -/
theorem quantile_backfill_swap :
    getQuantileThresholdHigh
      [⟨0, 0, 0, 0, 0, 0, true, 0, 0, 0, 5, 0, 0, 0⟩,
       ⟨0, 0, 0, 0, 0, 0, true, 0, 0, 0, 0, 3, 0, 0⟩] (3/4) = 3 ∧
    getQuantileThresholdHighClaim
      [⟨0, 0, 0, 0, 0, 0, true, 0, 0, 0, 5, 0, 0, 0⟩,
       ⟨0, 0, 0, 0, 0, 0, true, 0, 0, 0, 0, 3, 0, 0⟩] (3/4) = 5 ∧
    (3 : ℚ) ≠ 5 := by
  refine ⟨?_, ?_, by norm_num⟩ <;>
    norm_num [getQuantileThresholdHigh, getQuantileThresholdHighClaim,
      getQuantileSortedVec, List.filter, List.mergeSort]

lemma mem_topNLoop {wl : ℕ → Bool} {n : ℕ} (l : List (ℕ × ℕ)) (acc : Finset ℕ) (x : ℕ)
    (hx : x ∈ topNLoop wl n l acc) :
    x ∈ acc ∨ ∃ p ∈ l, p.1 = x ∧ wl p.1 = false := by
  induction l generalizing acc with
  | nil => exact Or.inl (by simpa [topNLoop] using hx)
  | cons p rest ih =>
    rw [topNLoop] at hx
    by_cases hw : wl p.1
    · rw [if_pos hw] at hx
      rcases ih _ hx with h | ⟨q, hq, hqx⟩
      · exact Or.inl h
      · exact Or.inr ⟨q, List.mem_cons_of_mem _ hq, hqx⟩
    · have hwf : wl p.1 = false := by simpa using hw
      rw [if_neg hw] at hx
      by_cases hc : (insert p.1 acc).card = n
      · simp only [if_pos hc] at hx
        rcases Finset.mem_insert.mp hx with h | h
        · exact Or.inr ⟨p, List.mem_cons_self _ _, h.symm, hwf⟩
        · exact Or.inl h
      · simp only [if_neg hc] at hx
        rcases ih _ hx with h | ⟨q, hq, hqx⟩
        · rcases Finset.mem_insert.mp h with h' | h'
          · exact Or.inr ⟨p, List.mem_cons_self _ _, h'.symm, hwf⟩
          · exact Or.inl h'
        · exact Or.inr ⟨q, List.mem_cons_of_mem _ hq, hqx⟩

/-- C1: an alert is enqueued for column `j` only when all five per-column ACUs
report a positive anomaly at the sensitivity multiplier of `maxIP`, the quiet
period has elapsed (`currTime − lastAlert[j] > timeBetweenAlertsSecs`), and at
least one reversed source IP is not whitelisted; if any of these conditions
fails, `columnAlertCheck` enqueues nothing for that column in that window. -/
theorem alert_enqueued_only_when (getMult : ℕ → ℚ) (wl : ℕ → Bool) (n : ℕ)
    (cusumBytes cusumPackets cusumEntropy cusumBytesReceivedToSent
      cusumFlowsReceivedToSent : ℕ → AdaptiveCUSUM)
    (thresholdSet : Bool) (currTime timeBetweenAlertsSecs : ℤ) (maxIP j : ℕ)
    (reversedSrcIPs : List (ℕ × ℕ)) (alert : dos_alert)
    (h : columnAlertCheck getMult wl n cusumBytes cusumPackets cusumEntropy
      cusumBytesReceivedToSent cusumFlowsReceivedToSent thresholdSet currTime
      timeBetweenAlertsSecs maxIP j reversedSrcIPs = some alert) :
    ((cusumBytes j).isPositiveAnomaly (getMult maxIP) = true ∧
     (cusumPackets j).isPositiveAnomaly (getMult maxIP) = true ∧
     (cusumEntropy j).isPositiveAnomaly (getMult maxIP) = true ∧
     (cusumBytesReceivedToSent j).isPositiveAnomaly (getMult maxIP) = true ∧
     (cusumFlowsReceivedToSent j).isPositiveAnomaly (getMult maxIP) = true) ∧
    timeBetweenAlertsSecs < currTime - (cusumBytes j).lastAlert ∧
    (∃ p ∈ reversedSrcIPs, wl p.1 = false) := by
  rw [columnAlertCheck] at h
  split at h
  · rename_i hguard
    rw [detectAnomaly] at h
    split at h
    · rename_i hanom
      by_cases hne : (getTopNSrcIPs wl n reversedSrcIPs).Nonempty
      · obtain ⟨x, hx⟩ := hne
        rw [getTopNSrcIPs] at hx
        rcases mem_topNLoop _ _ x hx with hacc | ⟨q, hq, _, hqwl⟩
        · exact absurd hacc (Finset.not_mem_empty x)
        · refine ⟨⟨hanom.1, hanom.2.1, hanom.2.2.2.2, hanom.2.2.1, hanom.2.2.2.1⟩,
            ?_, q, (List.mem_mergeSort).mp hq, hqwl⟩
          have := hguard.2
          omega
      · simp only [if_neg hne] at h
        exact absurd h (by simp)
    · exact absurd h (by simp)
  · exact absurd h (by simp)

theorem alert_enqueued_only_when_witness :
    ∃ p ∈ [((7 : ℕ), (3 : ℕ))], (fun (_ : ℕ) => false) p.1 = false := by
  have hpos : AdaptiveCUSUM.isPositiveAnomaly
      ⟨0, 0, 0, 0, 1, 0, true, 0, 0, 0, 0, 0, 0, 0⟩ ((fun (_ : ℕ) => (1 : ℚ)) 3)
      = true := by
    simp [AdaptiveCUSUM.isPositiveAnomaly]
  have htop : getTopNSrcIPs (fun _ => false) 5 [(7, 3)] = {7} := by
    simp [getTopNSrcIPs, topNLoop, List.mergeSort]
  have h : columnAlertCheck (fun _ => 1) (fun _ => false) 5
      (fun _ => ⟨0, 0, 0, 0, 1, 0, true, 0, 0, 0, 0, 0, 0, 0⟩)
      (fun _ => ⟨0, 0, 0, 0, 1, 0, true, 0, 0, 0, 0, 0, 0, 0⟩)
      (fun _ => ⟨0, 0, 0, 0, 1, 0, true, 0, 0, 0, 0, 0, 0, 0⟩)
      (fun _ => ⟨0, 0, 0, 0, 1, 0, true, 0, 0, 0, 0, 0, 0, 0⟩)
      (fun _ => ⟨0, 0, 0, 0, 1, 0, true, 0, 0, 0, 0, 0, 0, 0⟩)
      true 1 0 3 0 [(7, 3)]
      = some ⟨0 * 1, 0 * 1, 0 * 1, 0 * 1, 0 * 1, 1, 1, 1, 1, 1, 3, 0, {7}⟩ := by
    rw [columnAlertCheck, if_pos (by norm_num), detectAnomaly,
      if_pos (by exact ⟨hpos, hpos, hpos, hpos, hpos⟩)]
    simp only [htop]
    rw [if_pos (by simp)]
  exact (alert_enqueued_only_when (fun _ => 1) (fun _ => false) 5 _ _ _ _ _ true 1 0 3 0
    [(7, 3)] _ h).2.2

lemma srcLoopFuel_stable (s : CountMinSketch (binCountSketchValue 32))
    (row idx flows fuel prevCnt : ℕ) (h : prevCnt = (s.cells row idx).count) :
    srcLoopFuel s row idx flows fuel prevCnt = [] := by
  cases fuel with
  | zero => rfl
  | succ f => rw [srcLoopFuel, if_pos h]

lemma srcLoopFuel_succ (s : CountMinSketch (binCountSketchValue 32))
    (row idx flows f : ℕ) :
    srcLoopFuel s row idx flows (f + 1) 0 = srcLoopFuel s row idx flows 1 0 := by
  rw [srcLoopFuel, srcLoopFuel]
  by_cases h0 : (0 : ℕ) = (s.cells row idx).count
  · rw [if_pos h0, if_pos h0]
  · rw [if_neg h0, if_neg h0]
    by_cases hest : (s.cells (s.estimate ((s.cells row idx).value.reverseKey)).1
        (s.estimate ((s.cells row idx).value.reverseKey)).2).count = 0
    · rw [if_pos hest, if_pos hest]
    · rw [if_neg hest, if_neg hest,
        srcLoopFuel_stable s row idx flows f _ rfl,
        srcLoopFuel_stable s row idx flows 0 _ rfl]

lemma srcLoopFuel_length (s : CountMinSketch (binCountSketchValue 32))
    (row idx flows fuel : ℕ) :
    (srcLoopFuel s row idx flows fuel 0).length ≤ 1 := by
  cases fuel with
  | zero => simp [srcLoopFuel]
  | succ f =>
    rw [srcLoopFuel_succ, srcLoopFuel]
    by_cases h0 : (0 : ℕ) = (s.cells row idx).count
    · simp [if_pos h0]
    · rw [if_neg h0]
      by_cases hest : (s.cells (s.estimate ((s.cells row idx).value.reverseKey)).1
          (s.estimate ((s.cells row idx).value.reverseKey)).2).count = 0
      · simp [if_pos hest]
      · rw [if_neg hest]
        simp [srcLoopFuel]

lemma foldl_append_congr {α β : Type} (l : List α) (a : List β) (g1 g2 : α → List β)
    (h : ∀ e ∈ l, g1 e = g2 e) :
    l.foldl (fun acc e => acc ++ g1 e) a = l.foldl (fun acc e => acc ++ g2 e) a := by
  induction l generalizing a with
  | nil => rfl
  | cons e rest ih =>
    rw [List.foldl_cons, List.foldl_cons, h e (List.mem_cons_self _ _),
      ih _ fun e' he' => h e' (List.mem_cons_of_mem _ he')]

lemma foldl_append_length {α β : Type} (l : List α) (a : List β) (g : α → List β)
    (h : ∀ e, (g e).length ≤ 1) :
    (l.foldl (fun acc e => acc ++ g e) a).length ≤ a.length + l.length := by
  induction l generalizing a with
  | nil => simp
  | cons e rest ih =>
    rw [List.foldl_cons]
    calc (rest.foldl (fun acc e => acc ++ g e) (a ++ g e)).length
        ≤ (a ++ g e).length + rest.length := ih _
      _ ≤ a.length + 1 + rest.length := by
          have := h e
          simp only [List.length_append]
          omega
      _ = a.length + (rest.length + 1) := by omega
      _ = a.length + (e :: rest).length := by rw [List.length_cons]

/-- C10: `reverseSrcIPs` terminates — its result is already fixed with loop fuel
2, because the loop body never mutates `srcIPsCopy`, so the count tested by the
`while` condition is unchanged and the inner loop runs at most once per entry —
and it appends at most one `(recoveredSrcIP, flowCount)` pair per
`communicatedWith` entry. -/
theorem reverseSrcIPs_terminates (srcIPsCopy : CountMinSketch (binCountSketchValue 32))
    (rows : ℕ → ℕ) (communicatedWith : List (ℕ × ℕ)) (fuel : ℕ) (h : 2 ≤ fuel) :
    reverseSrcIPsFuel fuel srcIPsCopy rows communicatedWith
      = reverseSrcIPsFuel 2 srcIPsCopy rows communicatedWith ∧
    (reverseSrcIPsFuel fuel srcIPsCopy rows communicatedWith).length
      ≤ communicatedWith.length := by
  obtain ⟨k, rfl⟩ : ∃ k, fuel = k + 2 := ⟨fuel - 2, by omega⟩
  have heq : reverseSrcIPsFuel (k + 2) srcIPsCopy rows communicatedWith
      = reverseSrcIPsFuel 2 srcIPsCopy rows communicatedWith := by
    rw [reverseSrcIPsFuel, reverseSrcIPsFuel]
    exact foldl_append_congr _ _ _ _ fun e _ => by
      rw [srcLoopFuel_succ _ _ _ _ (k + 1), srcLoopFuel_succ _ _ _ _ 1]
  refine ⟨heq, ?_⟩
  rw [reverseSrcIPsFuel]
  have := foldl_append_length communicatedWith []
    (fun e => srcLoopFuel srcIPsCopy (rows e.1) e.1 e.2 (k + 2) 0)
    (fun e => srcLoopFuel_length _ _ _ _ _)
  simpa using this

theorem reverseSrcIPs_terminates_witness :
    (2 : ℕ) ≤ 5 ∧
    (reverseSrcIPsFuel 5
        (CountMinSketch.empty (binCountSketchValue 32) 1 1 (fun _ _ => 0)
          (binCountSketchValue.init 32 0))
        (fun _ => 0) [(0, 2)]).length ≤ ([((0 : ℕ), (2 : ℕ))]).length :=
  ⟨by norm_num,
   (reverseSrcIPs_terminates
      (CountMinSketch.empty (binCountSketchValue 32) 1 1 (fun _ _ => 0)
        (binCountSketchValue.init 32 0))
      (fun _ => 0) [(0, 2)] 5 (by norm_num)).2⟩

/-- C9 counterexample: a flow whose source (5) is protected and whose
destination (7) is not DOES modify the source sketch — `processCurrentFlow`
falls through to `srcIPs.update(srcAddr, 1)` in the protected-source branch —
contradicting the claim that only the destination-sketch `sentBytes`/`sentFlows`
are touched. -/
theorem processCurrentFlow_modifies_srcIPs :
    ((processCurrentFlow (fun k => decide (k = 5))
        ⟨CountMinSketch.empty ddosDetectorValue 1 1 (fun _ _ => 0)
          ddosDetectorValue.init,
         CountMinSketch.empty (binCountSketchValue 32) 1 1 (fun _ _ => 0)
          (binCountSketchValue.init 32 0)⟩
        ⟨5, 7, 1, 10⟩).srcIPs.cells 0 0).count = 1 ∧
    (((⟨CountMinSketch.empty ddosDetectorValue 1 1 (fun _ _ => 0)
          ddosDetectorValue.init,
        CountMinSketch.empty (binCountSketchValue 32) 1 1 (fun _ _ => 0)
          (binCountSketchValue.init 32 0)⟩ : detectorSketches)).srcIPs.cells 0 0).count
      = 0 := by
  constructor
  · rfl
  · rfl

/-- The `!isDst` row body of `updateCommunicatedWith`, named to keep proof
goals readable: accumulate sent bytes in the destination cell of row `i` keyed
by the source /24. -/
def sentStep (srcIP bytes : ℕ) (acc : detectorSketches) (i : ℕ) : detectorSketches :=
  let dstIPidx := acc.dstIPs.getCol (srcIP &&& 0xFFFFFF) i
  { acc with dstIPs := acc.dstIPs.modifyValue i dstIPidx (fun v => v.updateSentBytes bytes) }

lemma updateCommWith_false_eq (st : detectorSketches) (srcIP dstIP bytes : ℕ) :
    updateCommunicatedWith st srcIP dstIP bytes false
      = (List.range st.dstIPs.depth).foldl (sentStep srcIP bytes) st := by
  rfl

lemma sentStep_srcIPs (srcIP bytes : ℕ) (st : detectorSketches) (m : ℕ) :
    ((List.range m).foldl (sentStep srcIP bytes) st).srcIPs = st.srcIPs ∧
    ((List.range m).foldl (sentStep srcIP bytes) st).dstIPs.depth = st.dstIPs.depth ∧
    ((List.range m).foldl (sentStep srcIP bytes) st).dstIPs.width = st.dstIPs.width ∧
    ((List.range m).foldl (sentStep srcIP bytes) st).dstIPs.hash = st.dstIPs.hash := by
  induction m with
  | zero => exact ⟨rfl, rfl, rfl, rfl⟩
  | succ m ih =>
    rw [List.range_succ, List.foldl_append, List.foldl_cons, List.foldl_nil]
    exact ⟨ih.1, ih.2.1, ih.2.2.1, ih.2.2.2⟩

lemma sentStep_cells (srcIP bytes : ℕ) (st : detectorSketches) (m : ℕ) :
    ∀ i c, ((List.range m).foldl (sentStep srcIP bytes) st).dstIPs.cells i c
      = if i < m ∧ c = st.dstIPs.getCol (srcIP &&& 0xFFFFFF) i then
          ⟨(st.dstIPs.cells i c).count,
           (st.dstIPs.cells i c).value.updateSentBytes bytes⟩
        else st.dstIPs.cells i c := by
  induction m with
  | zero =>
    intro i c
    rw [List.range_zero, List.foldl_nil, if_neg (by omega)]
  | succ m ih =>
    intro i c
    rw [List.range_succ, List.foldl_append, List.foldl_cons, List.foldl_nil]
    obtain ⟨-, -, ihw, ihh⟩ := sentStep_srcIPs srcIP bytes st m
    have hcol : ((List.range m).foldl (sentStep srcIP bytes) st).dstIPs.getCol
        (srcIP &&& 0xFFFFFF) m = st.dstIPs.getCol (srcIP &&& 0xFFFFFF) m := by
      rw [CountMinSketch.getCol, CountMinSketch.getCol, ihw, ihh]
    rw [sentStep]
    simp only [CountMinSketch.modifyValue, hcol, ih]
    by_cases him : i = m ∧ c = st.dstIPs.getCol (srcIP &&& 0xFFFFFF) m
    · rw [if_pos him, if_neg (by omega), if_pos ⟨by omega, by rw [him.2, him.1]⟩]
    · rw [if_neg him]
      by_cases hic : i < m ∧ c = st.dstIPs.getCol (srcIP &&& 0xFFFFFF) i
      · rw [if_pos hic, if_pos ⟨by omega, hic.2⟩]
      · rw [if_neg hic, if_neg (by
          intro hcon
          rcases Nat.lt_succ_iff_lt_or_eq.mp hcon.1 with hlt | heq
          · exact hic ⟨hlt, hcon.2⟩
          · exact him ⟨heq, by rw [hcon.2, heq]⟩)]

/-- C9 (amended): a flow whose destination is not protected and whose source is
protected accumulates `sentBytes += bytes, sentFlows += 1` in the
destination-sketch cell keyed by the source's /24 on every row, leaves every
other destination cell and the sketch geometry unchanged, AND also inserts
`(srcAddr, 1)` into the source sketch (the fall-through the original claim
denies); a flow where neither address is protected changes nothing. -/
theorem processCurrentFlow_effects (prot : ℕ → Bool) (st : detectorSketches)
    (r : netflowRecord) :
    (prot r.dstAddr = false → prot r.srcAddr = true →
      (processCurrentFlow prot st r).srcIPs
        = st.srcIPs.update r.srcAddr (fun b => b.update r.srcAddr 1) ∧
      (processCurrentFlow prot st r).dstIPs.depth = st.dstIPs.depth ∧
      (processCurrentFlow prot st r).dstIPs.width = st.dstIPs.width ∧
      (processCurrentFlow prot st r).dstIPs.hash = st.dstIPs.hash ∧
      (∀ i c, (processCurrentFlow prot st r).dstIPs.cells i c
        = if i < st.dstIPs.depth ∧ c = st.dstIPs.getCol (r.srcAddr &&& 0xFFFFFF) i then
            ⟨(st.dstIPs.cells i c).count,
             (st.dstIPs.cells i c).value.updateSentBytes r.bytes⟩
          else st.dstIPs.cells i c)) ∧
    (prot r.dstAddr = false → prot r.srcAddr = false →
      processCurrentFlow prot st r = st) := by
  constructor
  · intro hd hs
    rw [processCurrentFlow, if_neg (by simp [hd]), if_pos hs,
      updateCommWith_false_eq st r.srcAddr r.dstAddr r.bytes]
    obtain ⟨ihs, ihd, ihw, ihh⟩ := sentStep_srcIPs r.srcAddr r.bytes st st.dstIPs.depth
    refine ⟨?_, ?_, ?_, ?_, ?_⟩
    · show ((List.range st.dstIPs.depth).foldl (sentStep r.srcAddr r.bytes)
          st).srcIPs.update r.srcAddr (fun b => b.update r.srcAddr 1)
        = st.srcIPs.update r.srcAddr (fun b => b.update r.srcAddr 1)
      rw [ihs]
    · exact ihd
    · exact ihw
    · exact ihh
    · exact sentStep_cells r.srcAddr r.bytes st st.dstIPs.depth
  · intro hd hs
    rw [processCurrentFlow, if_neg (by simp [hd]), if_neg (by simp [hs])]

theorem processCurrentFlow_effects_witness :
    (processCurrentFlow (fun k => decide (k = 5))
        ⟨CountMinSketch.empty ddosDetectorValue 1 1 (fun _ _ => 0)
          ddosDetectorValue.init,
         CountMinSketch.empty (binCountSketchValue 32) 1 1 (fun _ _ => 0)
          (binCountSketchValue.init 32 0)⟩
        ⟨5, 7, 1, 10⟩).srcIPs
      = (CountMinSketch.empty (binCountSketchValue 32) 1 1 (fun _ _ => 0)
          (binCountSketchValue.init 32 0)).update 5 (fun b => b.update 5 1) :=
  ((processCurrentFlow_effects (fun k => decide (k = 5)) _ ⟨5, 7, 1, 10⟩).1
    (by decide) (by decide)).1

lemma bitsToNat_false (n : ℕ) : bitsToNat (fun _ => false) n = 0 := by
  induction n with
  | zero => rfl
  | succ n ih => simp [bitsToNat, ih]

lemma land_mask_eq_mod (x : ℕ) : x &&& 0xFFFFFF = x % 2 ^ 24 := by
  have h : (0xFFFFFF : ℕ) = 2 ^ 24 - 1 := by norm_num
  rw [h, Nat.and_pow_two_sub_one_eq_mod]

lemma testBit_of_masked {a p : ℕ} (h : a &&& 0xFFFFFF = p) (i : ℕ) (hi : i < 24) :
    a.testBit i = p.testBit i := by
  have hm : (0xFFFFFF : ℕ) = 2 ^ 24 - 1 := by norm_num
  rw [← h, hm, Nat.testBit_land, Nat.testBit_two_pow_sub_one]
  simp [hi]

lemma masked_lt {a p : ℕ} (h : a &&& 0xFFFFFF = p) : p < 2 ^ 24 := by
  rw [← h, land_mask_eq_mod]
  exact Nat.mod_lt _ (by norm_num)

/-- The reversible key of `V.sub V` is identically zero on the meaningful bins. -/
lemma bcv_sub_self (b : binCountSketchValue 32) :
    (b.sub b).totalCount = 0 ∧ ∀ i, i < 32 → (b.sub b).binCount i = 0 := by
  constructor
  · simp [binCountSketchValue.sub]
  · intro i hi
    simp [binCountSketchValue.sub, hi]

/-- Majority reversal of a bin-count value whose low 24 bins hold the exact
single-key profile `(p, n)` recovers `p` after masking to the /24. -/
lemma reverseKey_masked (b : binCountSketchValue 32) (p n : ℕ) (hp : p < 2 ^ 24)
    (hn : 0 < n) (htot : b.totalCount = n)
    (hbins : ∀ i, i < 24 → b.binCount i = if p.testBit i then n else 0) :
    b.reverseKey &&& 0xFFFFFF = p := by
  rw [binCountSketchValue.reverseKey, land_mask_eq_mod,
    bitsToNat_mod _ (by norm_num : (24 : ℕ) ≤ 32)]
  have hg : ∀ i, i < 24 →
      (decide (b.totalCount / 2 < b.binCount i)) = p.testBit i := by
    intro i hi
    rw [htot, hbins i hi]
    by_cases hb : p.testBit i
    · simp only [hb, if_true]
      simp [Nat.div_lt_self hn]
    · simp only [hb, if_false]
      simp
  rw [bitsToNat_congr 24 hg, bitsToNat_testBit_self p 24 hp]

/-- Zero-profile majority reversal returns key 0. -/
lemma reverseKey_zero (b : binCountSketchValue 32) (htot : b.totalCount = 0)
    (hbins : ∀ i, i < 32 → b.binCount i = 0) :
    b.reverseKey = 0 := by
  rw [binCountSketchValue.reverseKey]
  have hg : ∀ i, i < 32 →
      (decide (b.totalCount / 2 < b.binCount i)) = (fun _ => false) i := by
    intro i hi
    rw [htot, hbins i hi]
    simp
  rw [bitsToNat_congr 32 hg, bitsToNat_false]

/-- The shape invariant of C5's single-key scenario: every row of the sketch
holds the aggregate `⟨n, V⟩` at `p`'s column and empty cells elsewhere. -/
def dstShape (d w : ℕ) (hash : ℕ → ℕ → ℕ) (p : ℕ)
    (s : CountMinSketch ddosDetectorValue) (n : ℕ) (V : ddosDetectorValue) : Prop :=
  s.depth = d ∧ s.width = w ∧ s.hash = hash ∧
  ∀ i c, s.cells i c
    = if i < d ∧ c = hash i p % w then ⟨n, V⟩ else ⟨0, ddosDetectorValue.init⟩

lemma dstShape_update (d w : ℕ) (hash : ℕ → ℕ → ℕ) (p : ℕ)
    (s : CountMinSketch ddosDetectorValue) (n : ℕ) (V : ddosDetectorValue)
    (r : netflowRecord) (hs : dstShape d w hash p s n V)
    (hr : r.dstAddr &&& 0xFFFFFF = p) :
    dstShape d w hash p
      (s.update (r.dstAddr &&& 0xFFFFFF)
        (fun v => v.update (r.dstAddr &&& 0xFFFFFF) r))
      (n + 1) (V.update (r.dstAddr &&& 0xFFFFFF) r) := by
  obtain ⟨hdep, hwid, hhash, hcells⟩ := hs
  refine ⟨hdep, hwid, hhash, fun i c => ?_⟩
  rw [CountMinSketch.update]
  simp only [CountMinSketch.getCol, hdep, hwid, hhash, hr, hcells]
  by_cases hic : i < d ∧ c = hash i p % w
  · rw [if_pos hic, if_pos hic, if_pos hic]
  · rw [if_neg hic, if_neg hic, if_neg hic]

lemma dstShape_foldl (d w : ℕ) (hash : ℕ → ℕ → ℕ) (p : ℕ)
    (rs : List netflowRecord) (hkeys : ∀ r ∈ rs, r.dstAddr &&& 0xFFFFFF = p)
    (s : CountMinSketch ddosDetectorValue) (n : ℕ) (V : ddosDetectorValue)
    (hs : dstShape d w hash p s n V) :
    dstShape d w hash p
      (rs.foldl (fun s' r => s'.update (r.dstAddr &&& 0xFFFFFF)
        (fun v => v.update (r.dstAddr &&& 0xFFFFFF) r)) s)
      (n + rs.length)
      (rs.foldl (fun v r => v.update (r.dstAddr &&& 0xFFFFFF) r) V) := by
  induction rs generalizing s n V with
  | nil => simpa using hs
  | cons r rest ih =>
    have hstep := dstShape_update d w hash p s n V r hs (hkeys r (List.mem_cons_self _ _))
    have := ih (fun r' hr' => hkeys r' (List.mem_cons_of_mem _ hr')) _ _ _ hstep
    rw [List.foldl_cons, List.foldl_cons, List.length_cons,
      show n + (rest.length + 1) = n + 1 + rest.length from by omega]
    exact this

lemma dstShape_dec (d w : ℕ) (hash : ℕ → ℕ → ℕ) (p : ℕ)
    (s : CountMinSketch ddosDetectorValue) (n : ℕ) (V : ddosDetectorValue)
    (hs : dstShape d w hash p s n V) :
    dstShape d w hash p (s.dec p ⟨n, V⟩ ddosDetectorValue.sub) 0 (V.sub V) := by
  obtain ⟨hdep, hwid, hhash, hcells⟩ := hs
  refine ⟨hdep, hwid, hhash, fun i c => ?_⟩
  rw [CountMinSketch.dec]
  simp only [CountMinSketch.getCol, hdep, hwid, hhash, hcells]
  by_cases hic : i < d ∧ c = hash i p % w
  · rw [if_pos hic, if_pos hic, if_pos hic]
    simp
  · rw [if_neg hic, if_neg hic, if_neg hic]

lemma dstShape_counts_zero (d w : ℕ) (hash : ℕ → ℕ → ℕ) (p : ℕ)
    (s : CountMinSketch ddosDetectorValue) (V : ddosDetectorValue)
    (hs : dstShape d w hash p s 0 V) :
    ∀ i c, (s.cells i c).count = 0 := by
  intro i c
  rw [hs.2.2.2 i c]
  split <;> rfl

lemma foldl_min_keep {α : Type} (f : α → ℕ) (l : List α) (b : α)
    (h : ∀ x ∈ l, ¬ f x < f b) :
    l.foldl (fun best rc => if f rc < f best then rc else best) b = b := by
  induction l with
  | nil => rfl
  | cons x rest ih =>
    rw [List.foldl_cons, if_neg (h x (List.mem_cons_self _ _))]
    exact ih fun y hy => h y (List.mem_cons_of_mem _ hy)

lemma estimate_dstShape (d w : ℕ) (hash : ℕ → ℕ → ℕ) (p : ℕ)
    (s : CountMinSketch ddosDetectorValue) (n : ℕ) (V : ddosDetectorValue)
    (hs : dstShape d w hash p s n V) (hd : 0 < d) :
    s.estimate p = (0, hash 0 p % w) := by
  obtain ⟨hdep, hwid, hhash, hcells⟩ := hs
  have hcol : ∀ i, s.getCol p i = hash i p % w := by
    intro i
    rw [CountMinSketch.getCol, hwid, hhash]
  rw [CountMinSketch.estimate, hdep, hcol 0]
  refine foldl_min_keep (fun rc : ℕ × ℕ => (s.cells rc.1 rc.2).count) _ _ ?_
  intro x hx
  obtain ⟨i, hi, rfl⟩ := List.mem_map.mp hx
  rw [List.mem_range] at hi
  rw [hcol i]
  show ¬ (s.cells i (hash i p % w)).count < (s.cells 0 (hash 0 p % w)).count
  rw [hcells i (hash i p % w), if_pos ⟨hi, rfl⟩,
    hcells 0 (hash 0 p % w), if_pos ⟨hd, rfl⟩]
  omega

/-- One non-breaking iteration of the `reverseAllKeys` loop, with the values
computed inside the body supplied as hypotheses. -/
lemma rakLoopFuel_step (prot : ℕ → Bool) (column f : ℕ) (st : rakState)
    (cand : ℕ) (rc : ℕ × ℕ) (cl : sketchCell ddosDetectorValue)
    (hne : st.prevCnt ≠ (st.dst.cells 0 column).count)
    (hcand : (st.dst.cells 0 column).value.reverseKey &&& 0xFFFFFF = cand)
    (hrc : st.dst.estimate cand = rc)
    (hcl : st.dst.cells rc.1 rc.2 = cl)
    (hcnt : cl.count ≠ 0) (hprot : prot cand = true) :
    rakLoopFuel prot column (f + 1) st
      = rakLoopFuel prot column f
          { prevCnt := (st.dst.cells 0 column).count
            dst := st.dst.dec cand cl ddosDetectorValue.sub
            resultCell := st.resultCell.add cl.value
            maxIP := (if st.maxIPBytes < cl.value.byteCount then (cand, cl.value.byteCount)
              else (st.maxIP, st.maxIPBytes)).1
            maxIPBytes := (if st.maxIPBytes < cl.value.byteCount
              then (cand, cl.value.byteCount) else (st.maxIP, st.maxIPBytes)).2
            rows := fun k => if (cl.value.communicatedWith k).isSome then rc.1
              else st.rows k } := by
  rw [rakLoopFuel, if_neg hne]
  simp only [hcand, hrc, hcl]
  rw [if_neg (by simp [hcnt, hprot])]

/-- One breaking iteration of the `reverseAllKeys` loop (empty estimate or
unprotected candidate): only the local `prevCnt` is refreshed. -/
lemma rakLoopFuel_stop (prot : ℕ → Bool) (column f : ℕ) (st : rakState)
    (cand : ℕ) (rc : ℕ × ℕ) (cl : sketchCell ddosDetectorValue)
    (hne : st.prevCnt ≠ (st.dst.cells 0 column).count)
    (hcand : (st.dst.cells 0 column).value.reverseKey &&& 0xFFFFFF = cand)
    (hrc : st.dst.estimate cand = rc)
    (hcl : st.dst.cells rc.1 rc.2 = cl)
    (hstop : cl.count = 0 ∨ prot cand = false) :
    rakLoopFuel prot column (f + 1) st
      = { st with prevCnt := (st.dst.cells 0 column).count } := by
  rw [rakLoopFuel, if_neg hne]
  simp only [hcand, hrc, hcl]
  rw [if_pos hstop]

lemma ddv_fold_profile (p : ℕ) (rs : List netflowRecord)
    (hkeys : ∀ r ∈ rs, r.dstAddr &&& 0xFFFFFF = p) (V0 : ddosDetectorValue) :
    (rs.foldl (fun v r => v.update (r.dstAddr &&& 0xFFFFFF) r)
        V0).reversibleKey.totalCount
      = V0.reversibleKey.totalCount + rs.length ∧
    ∀ i, i < 24 →
      (rs.foldl (fun v r => v.update (r.dstAddr &&& 0xFFFFFF) r)
          V0).reversibleKey.binCount i
        = V0.reversibleKey.binCount i + (if p.testBit i then rs.length else 0) := by
  induction rs generalizing V0 with
  | nil => simp
  | cons r rest ih =>
    obtain ⟨ih1, ih2⟩ := ih (fun r' h => hkeys r' (List.mem_cons_of_mem _ h))
      (V0.update (r.dstAddr &&& 0xFFFFFF) r)
    constructor
    · rw [List.foldl_cons, ih1]
      simp only [ddosDetectorValue.update, binCountSketchValue.update,
        List.length_cons]
      omega
    · intro i hi
      rw [List.foldl_cons, ih2 i hi]
      have hbit : r.dstAddr.testBit i = p.testBit i :=
        testBit_of_masked (hkeys r (List.mem_cons_self _ _)) i hi
      simp only [ddosDetectorValue.update, binCountSketchValue.update,
        List.length_cons]
      by_cases hb : p.testBit i
      · rw [if_pos ⟨by omega, by rw [hbit, hb]⟩, if_pos hb, if_pos hb]
        omega
      · rw [if_neg (fun hcon => hb (hbit ▸ hcon.2)), if_neg hb, if_neg hb]

/-- C5 (amended): iterative column reversal fully drains a column whose inserts
all carry one protected /24 key `p`: for any loop fuel ≥ 2 the accumulated
result cell's total equals the column's original row-0 cell total and the row-0
cell of that column is left with total (and count) 0.  (For a column holding
several protected keys the loop can stop early on an unprotected majority-vote
candidate, leaving a nonzero residue — see the counterexample.) -/
theorem reverseAllKeys_single_key_drain (d w : ℕ) (hash : ℕ → ℕ → ℕ)
    (prot : ℕ → Bool) (p : ℕ) (rs : List netflowRecord) (fuel : ℕ)
    (sk : CountMinSketch ddosDetectorValue)
    (hsk : sk = rs.foldl (fun s' r => s'.update (r.dstAddr &&& 0xFFFFFF)
        (fun v => v.update (r.dstAddr &&& 0xFFFFFF) r))
        (CountMinSketch.empty ddosDetectorValue d w hash ddosDetectorValue.init))
    (hd : 0 < d) (hp : prot p = true) (hne : rs ≠ [])
    (hkeys : ∀ r ∈ rs, r.dstAddr &&& 0xFFFFFF = p) (hf : 2 ≤ fuel) :
    (reverseAllKeysFuel fuel prot sk (hash 0 p % w)).resultCell.reversibleKey.totalCount
      = (sk.cells 0 (hash 0 p % w)).value.reversibleKey.totalCount ∧
    ((reverseAllKeysFuel fuel prot sk
        (hash 0 p % w)).dst.cells 0 (hash 0 p % w)).value.reversibleKey.totalCount
      = 0 ∧
    ((reverseAllKeysFuel fuel prot sk (hash 0 p % w)).dst.cells 0 (hash 0 p % w)).count
      = 0 := by
  have hbase : dstShape d w hash p
      (CountMinSketch.empty ddosDetectorValue d w hash ddosDetectorValue.init) 0
      ddosDetectorValue.init := by
    refine ⟨rfl, rfl, rfl, fun i c => ?_⟩
    rw [CountMinSketch.empty]
    split <;> rfl
  have hshape : dstShape d w hash p sk rs.length
      (rs.foldl (fun v r => v.update (r.dstAddr &&& 0xFFFFFF) r)
        ddosDetectorValue.init) := by
    rw [hsk]
    have := dstShape_foldl d w hash p rs hkeys _ 0 ddosDetectorValue.init hbase
    simpa using this
  set V := rs.foldl (fun v r => v.update (r.dstAddr &&& 0xFFFFFF) r)
    ddosDetectorValue.init with hVdef
  have hF : 0 < rs.length := List.length_pos.mpr hne
  obtain ⟨r0, hr0⟩ := List.exists_mem_of_ne_nil rs hne
  have hplt : p < 2 ^ 24 := masked_lt (hkeys r0 hr0)
  obtain ⟨hVt, hVb⟩ := ddv_fold_profile p rs hkeys ddosDetectorValue.init
  have hVtot : V.reversibleKey.totalCount = rs.length := by
    rw [hVdef, hVt]
    simp [ddosDetectorValue.init, binCountSketchValue.init]
  have hVbin : ∀ i, i < 24 →
      V.reversibleKey.binCount i = if p.testBit i then rs.length else 0 := by
    intro i hi
    rw [hVdef, hVb i hi]
    simp [ddosDetectorValue.init, binCountSketchValue.init]
  have hcell0 : sk.cells 0 (hash 0 p % w) = ⟨rs.length, V⟩ := by
    rw [hshape.2.2.2, if_pos ⟨hd, rfl⟩]
  have hmask : V.reversibleKey.reverseKey &&& 0xFFFFFF = p :=
    reverseKey_masked _ p rs.length hplt hF hVtot hVbin
  have hest : sk.estimate p = (0, hash 0 p % w) :=
    estimate_dstShape d w hash p sk rs.length V hshape hd
  have hdec : dstShape d w hash p
      (sk.dec p ⟨rs.length, V⟩ ddosDetectorValue.sub) 0 (V.sub V) :=
    dstShape_dec d w hash p sk rs.length V hshape
  have hzero := dstShape_counts_zero d w hash p _ _ hdec
  have hcell0' : (sk.dec p ⟨rs.length, V⟩ ddosDetectorValue.sub).cells 0
      (hash 0 p % w) = ⟨0, V.sub V⟩ := by
    rw [hdec.2.2.2, if_pos ⟨hd, rfl⟩]
  obtain ⟨hsub_t, hsub_b⟩ := bcv_sub_self V.reversibleKey
  obtain ⟨k, rfl⟩ : ∃ k, fuel = k + 1 + 1 := ⟨fuel - 2, by omega⟩
  have hstep := rakLoopFuel_step prot (hash 0 p % w) (k + 1)
    ⟨0, sk, ddosDetectorValue.init, 0, 0, fun _ => 0⟩ p (0, hash 0 p % w)
    ⟨rs.length, V⟩
    (by
      show (0 : ℕ) ≠ (sk.cells 0 (hash 0 p % w)).count
      rw [hcell0]
      show (0 : ℕ) ≠ rs.length
      omega)
    (by
      show (sk.cells 0 (hash 0 p % w)).value.reverseKey &&& 0xFFFFFF = p
      rw [hcell0]
      exact hmask)
    hest hcell0 (by show rs.length ≠ 0; omega) hp
  have hstop := rakLoopFuel_stop prot (hash 0 p % w) k
    { prevCnt :=
        ((⟨0, sk, ddosDetectorValue.init, 0, 0, fun _ => 0⟩ : rakState).dst.cells 0
          (hash 0 p % w)).count
      dst := (⟨0, sk, ddosDetectorValue.init, 0, 0, fun _ => 0⟩ : rakState).dst.dec p
        ⟨rs.length, V⟩ ddosDetectorValue.sub
      resultCell := (⟨0, sk, ddosDetectorValue.init, 0, 0,
        fun _ => 0⟩ : rakState).resultCell.add
        (⟨rs.length, V⟩ : sketchCell ddosDetectorValue).value
      maxIP := (if (⟨0, sk, ddosDetectorValue.init, 0, 0,
          fun _ => 0⟩ : rakState).maxIPBytes
          < (⟨rs.length, V⟩ : sketchCell ddosDetectorValue).value.byteCount
        then (p, (⟨rs.length, V⟩ : sketchCell ddosDetectorValue).value.byteCount)
        else ((⟨0, sk, ddosDetectorValue.init, 0, 0, fun _ => 0⟩ : rakState).maxIP,
          (⟨0, sk, ddosDetectorValue.init, 0, 0,
            fun _ => 0⟩ : rakState).maxIPBytes)).1
      maxIPBytes := (if (⟨0, sk, ddosDetectorValue.init, 0, 0,
          fun _ => 0⟩ : rakState).maxIPBytes
          < (⟨rs.length, V⟩ : sketchCell ddosDetectorValue).value.byteCount
        then (p, (⟨rs.length, V⟩ : sketchCell ddosDetectorValue).value.byteCount)
        else ((⟨0, sk, ddosDetectorValue.init, 0, 0, fun _ => 0⟩ : rakState).maxIP,
          (⟨0, sk, ddosDetectorValue.init, 0, 0,
            fun _ => 0⟩ : rakState).maxIPBytes)).2
      rows := fun k' =>
        if ((⟨rs.length, V⟩ : sketchCell ddosDetectorValue).value.communicatedWith
            k').isSome
        then (((0 : ℕ), hash 0 p % w)).1
        else (⟨0, sk, ddosDetectorValue.init, 0, 0, fun _ => 0⟩ : rakState).rows k' }
    0
    ((sk.dec p ⟨rs.length, V⟩ ddosDetectorValue.sub).estimate 0)
    ((sk.dec p ⟨rs.length, V⟩ ddosDetectorValue.sub).cells
      ((sk.dec p ⟨rs.length, V⟩ ddosDetectorValue.sub).estimate 0).1
      ((sk.dec p ⟨rs.length, V⟩ ddosDetectorValue.sub).estimate 0).2)
    (by
      show (sk.cells 0 (hash 0 p % w)).count
        ≠ ((sk.dec p ⟨rs.length, V⟩ ddosDetectorValue.sub).cells 0
            (hash 0 p % w)).count
      rw [hcell0, hcell0']
      show rs.length ≠ 0
      omega)
    (by
      show ((sk.dec p ⟨rs.length, V⟩ ddosDetectorValue.sub).cells 0
          (hash 0 p % w)).value.reverseKey &&& 0xFFFFFF = 0
      rw [hcell0']
      show (V.reversibleKey.sub V.reversibleKey).reverseKey &&& 0xFFFFFF = 0
      rw [reverseKey_zero _ hsub_t hsub_b]
      simp)
    rfl rfl
    (Or.inl (hzero _ _))
  refine ⟨?_, ?_, ?_⟩
  · rw [reverseAllKeysFuel, hstep, hstop]
    show (ddosDetectorValue.init.add V).reversibleKey.totalCount
      = (sk.cells 0 (hash 0 p % w)).value.reversibleKey.totalCount
    rw [hcell0]
    show (ddosDetectorValue.init.add V).reversibleKey.totalCount
      = V.reversibleKey.totalCount
    simp [ddosDetectorValue.add, binCountSketchValue.add, ddosDetectorValue.init,
      binCountSketchValue.init]
  · rw [reverseAllKeysFuel, hstep, hstop]
    show ((sk.dec p ⟨rs.length, V⟩ ddosDetectorValue.sub).cells 0
        (hash 0 p % w)).value.reversibleKey.totalCount = 0
    rw [hcell0']
    exact hsub_t
  · rw [reverseAllKeysFuel, hstep, hstop]
    show ((sk.dec p ⟨rs.length, V⟩ ddosDetectorValue.sub).cells 0
        (hash 0 p % w)).count = 0
    rw [hcell0']

/-- C5 counterexample: a column holding two distinct protected /24 keys (1 and 2)
of equal weight.  The majority vote over the mixed cell yields candidate 0,
which is not protected, so the loop breaks immediately: the accumulated result
total is 0 while the column's original row-0 cell total is 2, and the final
row-0 cell total is still 2 (not 0). -/
theorem reverseAllKeys_drain_cex :
    ((fun k => decide (k = 1 ∨ k = 2)) 1 = true) ∧
    ((fun k => decide (k = 1 ∨ k = 2)) 2 = true) ∧
    (reverseAllKeysFuel 2 (fun k => decide (k = 1 ∨ k = 2))
        ([⟨9, 1, 1, 10⟩, ⟨9, 2, 1, 10⟩].foldl
          (fun s' (r : netflowRecord) => s'.update (r.dstAddr &&& 0xFFFFFF)
            (fun v => v.update (r.dstAddr &&& 0xFFFFFF) r))
          (CountMinSketch.empty ddosDetectorValue 1 1 (fun _ _ => 0)
            ddosDetectorValue.init))
        0).resultCell.reversibleKey.totalCount = 0 ∧
    (([(⟨9, 1, 1, 10⟩ : netflowRecord), ⟨9, 2, 1, 10⟩].foldl
        (fun s' (r : netflowRecord) => s'.update (r.dstAddr &&& 0xFFFFFF)
          (fun v => v.update (r.dstAddr &&& 0xFFFFFF) r))
        (CountMinSketch.empty ddosDetectorValue 1 1 (fun _ _ => 0)
          ddosDetectorValue.init)).cells 0 0).value.reversibleKey.totalCount = 2 ∧
    ((reverseAllKeysFuel 2 (fun k => decide (k = 1 ∨ k = 2))
        ([⟨9, 1, 1, 10⟩, ⟨9, 2, 1, 10⟩].foldl
          (fun s' (r : netflowRecord) => s'.update (r.dstAddr &&& 0xFFFFFF)
            (fun v => v.update (r.dstAddr &&& 0xFFFFFF) r))
          (CountMinSketch.empty ddosDetectorValue 1 1 (fun _ _ => 0)
            ddosDetectorValue.init))
        0).dst.cells 0 0).value.reversibleKey.totalCount = 2 := by
  refine ⟨rfl, rfl, ?_, ?_, ?_⟩ <;> rfl

theorem reverseAllKeys_single_key_drain_witness :
    (reverseAllKeysFuel 2 (fun k => decide (k = 3))
        ([(⟨9, 3, 1, 10⟩ : netflowRecord)].foldl
          (fun s' (r : netflowRecord) => s'.update (r.dstAddr &&& 0xFFFFFF)
            (fun v => v.update (r.dstAddr &&& 0xFFFFFF) r))
          (CountMinSketch.empty ddosDetectorValue 1 1 (fun _ _ => 0)
            ddosDetectorValue.init))
        ((fun _ _ => (0 : ℕ)) 0 3 % 1)).resultCell.reversibleKey.totalCount
      = (([(⟨9, 3, 1, 10⟩ : netflowRecord)].foldl
          (fun s' (r : netflowRecord) => s'.update (r.dstAddr &&& 0xFFFFFF)
            (fun v => v.update (r.dstAddr &&& 0xFFFFFF) r))
          (CountMinSketch.empty ddosDetectorValue 1 1 (fun _ _ => 0)
            ddosDetectorValue.init)).cells 0
          ((fun _ _ => (0 : ℕ)) 0 3 % 1)).value.reversibleKey.totalCount :=
  (reverseAllKeys_single_key_drain 1 1 (fun _ _ => 0) (fun k => decide (k = 3)) 3
    [⟨9, 3, 1, 10⟩] 2 _ rfl (by norm_num) (by decide) (by simp)
    (by
      intro r hr
      simp only [List.mem_singleton] at hr
      subst hr
      rfl)
    (by norm_num)).1
